import Mathlib

/-!
Shallow embedding of the instruction-definition compiler of the
binary-translation repository: the record loader/normalizer of
`assembler/asm_defs.py` and the generator of `assembler/gen_asm.py`
(operand classification, shortcut synthesis and the binary / text /
verifier mode emitters), together with theorems settling the stated
claims about them.

Strings are modelled on `List Char`, which coincides with Python's
code-point view of `str`; the helper functions prefixed with `py`
reproduce the Python string operations used by the source.
-/

namespace AsmGen

/-- Python `str.split(sep)` for a one-character separator: splits at every
occurrence, keeping empty pieces, so `"a,b" → ["a","b"]` and `"" → [""]`. -/
def splitOnCharAux (c : Char) : List Char → List (List Char)
  | [] => [[]]
  | x :: xs =>
    match splitOnCharAux c xs with
    | [] => [[x]]
    | h :: t => if x = c then [] :: h :: t else (x :: h) :: t

/-- String-level wrapper of `splitOnCharAux`. -/
def pySplitChar (s : String) (c : Char) : List String :=
  (splitOnCharAux c s.data).map String.mk

/-- Python `str.split(sep, 1)` restricted to the part after the first
separator: returns `none` when the separator does not occur. -/
def breakAtCharAux (c : Char) : List Char → Option (List Char × List Char)
  | [] => none
  | x :: xs =>
    if x = c then some ([], xs)
    else (breakAtCharAux c xs).map (fun p => (x :: p.1, p.2))

/-- Python `str.startswith`. -/
def pyStartsWith (s pre : String) : Bool := pre.data.isPrefixOf s.data

/-- Python `str.endswith`. -/
def pyEndsWith (s suf : String) : Bool :=
  decide (suf.data.length ≤ s.data.length) &&
    (s.data.drop (s.data.length - suf.data.length) == suf.data)

/-- Membership of a pattern as a contiguous infix of a character list. -/
def infixData (p : List Char) : List Char → Bool
  | [] => p.isEmpty
  | x :: xs => p.isPrefixOf (x :: xs) || infixData p xs

/-- Python `sub in s` for strings. -/
def pyContains (s sub : String) : Bool := infixData sub.data s.data

/-- Python `c in s` for a single character. -/
def pyContainsChar (s : String) (c : Char) : Bool := s.data.contains c

/-- Python `str.upper` (the source only applies it to ASCII stems). -/
def pyUpper (s : String) : String := ⟨s.data.map Char.toUpper⟩

/-- Python `str.capitalize`: first character upper-cased, rest lower-cased. -/
def pyCapitalize (s : String) : String :=
  match s.data with
  | [] => ""
  | c :: cs => ⟨c.toUpper :: cs.map Char.toLower⟩

/-- Python slice `s[:-n]` by code points. -/
def pySliceDropRight (s : String) (n : Nat) : String :=
  ⟨s.data.take (s.data.length - n)⟩

/-- Python `sep.join(parts)`. -/
def pyJoin (sep : String) : List String → String
  | [] => ""
  | [x] => x
  | x :: y :: rest => x ++ sep ++ pyJoin sep (y :: rest)

/-- Fuel-driven worker for `pyReplace`; the fuel is an upper bound on the
remaining length, so the recursion is structural and computable. -/
def replaceAux (pat rep : List Char) : Nat → List Char → List Char
  | _, [] => []
  | 0, s => s
  | n + 1, x :: xs =>
    if pat ≠ [] ∧ pat.isPrefixOf (x :: xs) then
      rep ++ replaceAux pat rep n ((x :: xs).drop pat.length)
    else x :: replaceAux pat rep n xs

/-- Python `str.replace(pat, rep)`: all non-overlapping occurrences, left to
right (the source never replaces with an empty pattern). -/
def pyReplace (s pat rep : String) : String :=
  if pat.data = [] then s else ⟨replaceAux pat.data rep.data s.data.length s.data⟩

/-- Python whitespace characters recognised by `str.strip`. -/
def isPySpace (c : Char) : Bool :=
  (c == ' ') || (c == '\t') || (c == '\n') || (c == '\r') || (c == '\x0b') || (c == '\x0c')

/-- Python `str.strip()`. -/
def pyTrim (s : String) : String :=
  ⟨((s.data.dropWhile isPySpace).reverse.dropWhile isPySpace).reverse⟩

/-- Decimal rendering of the non-negative indices interpolated via `%d`. -/
def natStr (n : Nat) : String := toString n

/-- Lexicographic `≤` on character lists by code point, as Python compares
strings. -/
def charListLe : List Char → List Char → Bool
  | [], _ => true
  | _ :: _, [] => false
  | a :: as, b :: bs => if a = b then charListLe as bs else decide (a < b)

/-- Python `≤` on strings. -/
def pyStrLe (a b : String) : Bool := charListLe a.data b.data

/-- Stable insertion of an element after all already-placed elements that
compare `≤` to it. -/
def insertStable {α : Type} (le : α → α → Bool) (x : α) : List α → List α
  | [] => [x]
  | y :: ys => if le y x then y :: insertStable le x ys else x :: y :: ys

/-- Stable sort, modelling Python's (stable) `sorted`. -/
def stableSort {α : Type} (le : α → α → Bool) (l : List α) : List α :=
  l.foldl (fun acc x => insertStable le x acc) []

/-- One instruction operand: the `class` and optional `usage` keys of the
argument dictionaries in the definition JSON. Dictionary equality is
structural equality of both fields. -/
structure Arg where
  cls : String
  usage : Option String := none
deriving DecidableEq

/-- One entry of an `encodings` map: the source asserts that `opcodes` is
present and merges the entry into the record (`feature` is the only other
key the definition files put in encodings). -/
structure Encoding where
  opcodes : Option (List String) := none
  feature : Option String := none
deriving DecidableEq

/-- One instruction record. Optional fields model optional dictionary keys
(`none` = key absent); `ty` models the `type` key, `nativeAsm` the
`native-asm` key, `skipAsm`/`skipLir` the truthiness of `skip_asm`/`skip_lir`. -/
structure Insn where
  name : Option String := none
  asm : Option String := none
  mnemo : Option String := none
  args : List Arg := []
  opcode : Option String := none
  opcodes : Option (List String) := none
  stems : Option (List String) := none
  encodings : Option (List (String × Encoding)) := none
  feature : Option String := none
  ty : Option String := none
  nativeAsm : Option String := none
  skipAsm : Bool := false
  skipLir : Bool := false
deriving DecidableEq

instance {α β : Type} [DecidableEq α] [DecidableEq β] : DecidableEq (Except α β) :=
  fun a b =>
    match a, b with
    | .ok x, .ok y => if h : x = y then .isTrue (by rw [h]) else .isFalse (by simp [h])
    | .error x, .error y => if h : x = y then .isTrue (by rw [h]) else .isFalse (by simp [h])
    | .ok _, .error _ => .isFalse (by simp)
    | .error _, .ok _ => .isFalse (by simp)

/-- Error-propagating map over a list, the first error aborting the run, as an
uncaught Python exception does. -/
def mapExcept {α β : Type} (f : α → Except String β) : List α → Except String (List β)
  | [] => .ok []
  | x :: xs =>
    match f x with
    | .error e => .error e
    | .ok y =>
      match mapExcept f xs with
      | .error e => .error e
      | .ok ys => .ok (y :: ys)

/-- Error-propagating concatenation of per-element line lists: the shape of
every loop that prints lines for each matching catalog record. -/
def flatMapExcept {α : Type} (f : α → Except String (List String)) :
    List α → Except String (List String)
  | [] => .ok []
  | x :: xs =>
    match f x with
    | .error e => .error e
    | .ok ls =>
      match flatMapExcept f xs with
      | .error e => .error e
      | .ok rest => .ok (ls ++ rest)

/-! ### asm_defs.py -/

/-- Classes treated as immediates (`asm_defs.is_imm`). -/
def is_imm (t : String) : Bool :=
  ["Imm2", "Imm8", "Imm16", "Imm32", "Imm64"].contains t

/-- Displacement class (`asm_defs.is_disp`). -/
def is_disp (t : String) : Bool := t == "Disp"

/-- Memory-operand classes (`asm_defs.is_mem_op`). -/
def is_mem_op (t : String) : Bool :=
  ["Mem8", "Mem16", "Mem32", "Mem64", "Mem128",
   "VecMem32", "VecMem64", "VecMem128"].contains t

/-- Condition class (`asm_defs.is_cond`). -/
def is_cond (t : String) : Bool := t == "Cond"

/-- Label class (`asm_defs.is_label`). -/
def is_label (t : String) : Bool := t == "Label"

/-- General-purpose register classes (`asm_defs.is_greg`). -/
def is_greg (t : String) : Bool :=
  ["GeneralReg", "GeneralReg8", "GeneralReg16", "GeneralReg32", "GeneralReg64"].contains t

/-- Vector register classes (`asm_defs.is_xreg`). -/
def is_xreg (t : String) : Bool :=
  ["XmmReg", "VecReg64", "VecReg128", "FpReg32", "FpReg64"].contains t

/-- Fixed registers that are never passed to the assembler
(`asm_defs.is_implicit_reg`). -/
def is_implicit_reg (t : String) : Bool :=
  ["RAX", "EAX", "AX", "AL", "RCX", "ECX", "CL", "RDX", "EDX", "DX",
   "RBX", "EBX", "BX", "RDI", "RSI", "RSP", "FLAGS"].contains t

/-- Counts the `true` entries and compares with one (`asm_defs.exactly_one_of`). -/
def exactly_one_of (l : List Bool) : Bool := l.count true == 1

/-- One step of the suffix accumulation of `asm_defs.get_mem_macro_name`. -/
def memMacroSuffixStep (addrMode : Option String) (acc : String) (clazz : String) :
    Except String String :=
  if clazz = "FLAGS" ∨ is_cond clazz ∨ is_label clazz then .ok acc
  else if is_greg clazz ∨ is_implicit_reg clazz then .ok (acc ++ "Reg")
  else if is_xreg clazz then .ok (acc ++ "XReg")
  else if is_imm clazz then .ok (acc ++ "Imm")
  else if is_mem_op clazz then
    .ok (acc ++ (match addrMode with | some am => "Mem" ++ am | none => "Op"))
  else .error ("arg type " ++ clazz ++ " is not supported")

/-- Loop of `asm_defs.get_mem_macro_name` over the operand list. -/
def memMacroLoop (addrMode : Option String) (acc : String) : List Arg → Except String String
  | [] => .ok acc
  | a :: rest =>
    match memMacroSuffixStep addrMode acc a.cls with
    | .error e => .error e
    | .ok acc' => memMacroLoop addrMode acc' rest

/-- `asm_defs.get_mem_macro_name`: the generated symbol name, derived from the
`asm` stem (with a trailing `ByCl` stripped) plus one suffix per operand.
A missing `asm` key would crash the Python source and is modelled as an error. -/
def getMemMacroName (insn : Insn) (addrMode : Option String := none) : Except String String :=
  match insn.asm with
  | none => .error "AttributeError: asm missing"
  | some a =>
    memMacroLoop addrMode (if pyEndsWith a "ByCl" then pySliceDropRight a 4 else a) insn.args

/-- `asm_defs._expand_name`: clone the record, set `asm` to the stem, derive
`name` via `getMemMacroName`, set `mnemo` to the upper-cased stem, then merge
in the encoding's keys. -/
def expandName (insn : Insn) (stem : String) (enc : Encoding) : Except String Insn :=
  let e1 : Insn := { insn with asm := some stem }
  match getMemMacroName e1 none with
  | .error e => .error e
  | .ok nm =>
    let e2 : Insn := { e1 with name := some nm, mnemo := some (pyUpper stem) }
    .ok { e2 with
          opcodes := match enc.opcodes with | some o => some o | none => e2.opcodes,
          feature := match enc.feature with | some f => some f | none => e2.feature }

/-- Family expansion of one record (`asm_defs._expand_insn_by_encodings`, body
of the loop). The `stems` branch of the source checks for a key literally
spelled `encoding`, which no record of this model carries. -/
def expandOneByEncodings (insn : Insn) : Except String (List Insn) :=
  if (insn.encodings.getD []) ≠ [] then
    if insn.stems.isSome ∨ insn.name.isSome ∨ insn.asm.isSome ∨ insn.mnemo.isSome then
      .error "assert: encodings combined with stems, name, asm or mnemo"
    else if ¬ ((insn.encodings.getD []).all (fun p => p.2.opcodes.isSome)) then
      .error "assert: encoding entry without opcodes"
    else mapExcept (fun p => expandName insn p.1 p.2) (insn.encodings.getD [])
  else if (insn.stems.getD []) ≠ [] then
    if insn.name.isSome ∨ insn.asm.isSome ∨ insn.mnemo.isSome then
      .error "assert: stems combined with name, asm or mnemo"
    else mapExcept (fun stem => expandName insn stem {}) (insn.stems.getD [])
  else
    if insn.name.isSome ∧ insn.asm.isSome ∧ insn.mnemo.isSome then .ok [insn]
    else .error "assert: record missing name, asm or mnemo"

/-- `asm_defs._expand_insn_by_encodings` over the whole list. -/
def expandInsnByEncodings (insns : List Insn) : Except String (List Insn) :=
  match mapExcept expandOneByEncodings insns with
  | .error e => .error e
  | .ok ls => .ok ls.flatten

/-- Scan of one record's operand list in `asm_defs._expand_insns_by_operands`:
`pre` holds the already-scanned operands in reverse (the slash operand, once
expanded, retains its last alternative, mirroring the in-place mutation),
`splitDone` the `split_done` flag and `acc` the clones produced so far. -/
def expandOperandsGo (insn : Insn) :
    List Arg → List Arg → Bool → List Insn → Except String (List Insn)
  | [], _, splitDone, acc => if splitDone then .ok acc else .ok [insn]
  | a :: rest, pre, splitDone, acc =>
    if pyContainsChar a.cls '/' then
      if splitDone then .error "assert not split_done"
      else
        let subs := pySplitChar a.cls '/'
        let clones := subs.map
          (fun sc => { insn with args := pre.reverse ++ (⟨sc, a.usage⟩ : Arg) :: rest })
        expandOperandsGo insn rest ((⟨subs.getLastD a.cls, a.usage⟩ : Arg) :: pre) true
          (acc ++ clones)
    else expandOperandsGo insn rest (a :: pre) splitDone acc

/-- Alternative-operand expansion of one record. -/
def expandOperandsOne (insn : Insn) : Except String (List Insn) :=
  expandOperandsGo insn insn.args [] false []

/-- `asm_defs._expand_insns_by_operands` over the whole list. -/
def expandInsnsByOperands (insns : List Insn) : Except String (List Insn) :=
  match mapExcept expandOperandsOne insns with
  | .error e => .error e
  | .ok ls => .ok ls.flatten

/-- Sort key of the final catalog sort: `i.get('asm')` (every record carries
`asm` after family expansion; a missing key is ordered as the empty string). -/
def asmKeyLe (a b : Insn) : Bool := pyStrLe (a.asm.getD "") (b.asm.getD "")

/-- The final stable sort by mnemonic stem. -/
def sortByAsm (l : List Insn) : List Insn := stableSort asmKeyLe l

/-- `asm_defs.load_asm_defs` minus the file and JSON I/O: operand expansion,
family expansion and the final sort. No deduplication of any kind happens. -/
def loadAsmDefs (insns : List Insn) : Except String (List Insn) :=
  match expandInsnsByOperands insns with
  | .error e => .error e
  | .ok a =>
    match expandInsnByEncodings a with
    | .error e => .error e
    | .ok b => .ok (sortByAsm b)

/-! ### gen_asm.py -/

/-- The `ROUNDING_MODES` list. -/
def roundingModes : List String :=
  ["FE_TONEAREST", "FE_DOWNWARD", "FE_UPWARD", "FE_TOWARDZERO", "FE_TIESAWAY"]

/-- The `_imm_types` mapping from immediate class to target type. -/
def immTypes (c : String) : Option String :=
  if c = "Imm2" then some "int8_t"
  else if c = "Imm8" then some "int8_t"
  else if c = "Imm16" then some "int16_t"
  else if c = "Imm32" then some "int32_t"
  else if c = "Imm64" then some "int64_t"
  else if c = "B-Imm" then some "BImmediate"
  else if c = "I-Imm" then some "IImmediate"
  else if c = "J-Imm" then some "JImmediate"
  else if c = "P-Imm" then some "PImmediate"
  else if c = "S-Imm" then some "SImmediate"
  else if c = "U-Imm" then some "UImmediate"
  else if c = "Csr-Imm" then some "CsrImmediate"
  else if c = "Shift32-Imm" then some "Shift32Immediate"
  else if c = "Shift64-Imm" then some "Shift64Immediate"
  else none

/-- The `AssemblerMode` enumeration. -/
inductive AssemblerMode
  | binaryAssembler
  | textAssembler
  | verifierAssembler
deriving DecidableEq

/-- Modelled from the spec: `asm_defs.is_x87reg` is referenced by the
generator but absent from the provided sources; per the spec's operand-class
enumeration it recognises exactly the x87 register classes, which never
overlap the general/vector/immediate/memory classes above. -/
def is_x87reg (t : String) : Bool := ["X87Reg", "RegX87"].contains t

/-- Modelled from the spec: `asm_defs.is_freg` recognises the float register
class of the RISC-V records ("vector/float register" in the spec's data
model); it does not overlap the classes defined in the provided sources. -/
def is_freg (t : String) : Bool := t == "FpReg"

/-- Modelled from the spec: `asm_defs.is_yreg` recognises the 256-bit vector
register class. -/
def is_yreg (t : String) : Bool := t == "YmmReg"

/-- Modelled from the spec: `asm_defs.is_csr` recognises the control/status
register class of the RISC-V records. -/
def is_csr (t : String) : Bool := t == "Csr"

/-- Modelled from the spec: `asm_defs.is_rm` recognises the rounding-mode
operand class of the RISC-V records. -/
def is_rm (t : String) : Bool := t == "Rm"

/-- Modelled from the spec: `asm_defs._get_cxx_name` is used as
`Emit%sInstruction` with the record's `type` tag; we model it as CamelCasing
the dash-separated tag, the empty tag giving the empty string (so records
without a type yield `EmitInstruction`). -/
def getCxxName (s : String) : String :=
  String.join ((pySplitChar s '-').map pyCapitalize)

/-- `gen_asm._get_arg_type_name`: the generated parameter type of one operand. -/
def getArgTypeName (a : Arg) (insnType : Option String) : Except String String :=
  let c := a.cls
  if is_x87reg c then .ok "X87Register"
  else if is_greg c then .ok "Register"
  else if is_freg c then .ok "FpRegister"
  else if is_xreg c then .ok "XMMRegister"
  else if is_yreg c then .ok "YMMRegister"
  else if is_imm c then
    match immTypes c with
    | some t => .ok t
    | none => .error "KeyError: imm type"
  else if is_disp c then .ok "int32_t"
  else if is_label c then .ok "const Label&"
  else if is_cond c then .ok "Condition"
  else if is_csr c then .ok "Csr"
  else if is_rm c then .ok "Rounding"
  else if is_mem_op c then
    .ok (match insnType with
         | some t => if pyEndsWith t "-type" then
                       "const Operand<Register, " ++ pySliceDropRight t 5 ++ "Immediate>&"
                     else "const Operand&"
         | none => "const Operand&")
  else .error ("class " ++ c ++ " is not supported")

/-- Loop of `gen_asm._get_immediate_type`: asserts at most one immediate. -/
def getImmediateTypeGo : List Arg → Option String → Except String (Option String)
  | [], acc => .ok acc
  | a :: rest, acc =>
    if is_imm a.cls then
      match acc with
      | some _ => .error "assert: two immediate operands"
      | none =>
        match immTypes a.cls with
        | some t => getImmediateTypeGo rest (some t)
        | none => .error "KeyError: imm type"
    else getImmediateTypeGo rest acc

/-- `gen_asm._get_immediate_type`. -/
def getImmediateType (insn : Insn) : Except String (Option String) :=
  getImmediateTypeGo insn.args none

/-- Loop of `gen_asm._get_params`: implicit-register operands and filtered
operands are skipped without consuming a parameter index. -/
def getParamsGo (insnType : Option String) (filt : Option (Arg → Bool)) :
    List Arg → Nat → Except String (List String)
  | [], _ => .ok []
  | a :: rest, n =>
    if is_implicit_reg a.cls then getParamsGo insnType filt rest n
    else if (match filt with | some f => f a | none => false) then
      getParamsGo insnType filt rest n
    else
      match getArgTypeName a insnType with
      | .error e => .error e
      | .ok t =>
        match getParamsGo insnType filt rest (n + 1) with
        | .error e => .error e
        | .ok others => .ok (("[[maybe_unused]] " ++ t ++ " arg" ++ natStr n) :: others)

/-- `gen_asm._get_params`: the comma-joined generated parameter list. -/
def getParams (insn : Insn) (filt : Option (Arg → Bool) := none) : Except String String :=
  match getParamsGo insn.ty filt insn.args 0 with
  | .error e => .error e
  | .ok ps => .ok (pyJoin ", " ps)

/-- `gen_asm._contains_mem`. -/
def containsMem (insn : Insn) : Bool := insn.args.any (fun a => is_mem_op a.cls)

/-- Kind chosen for one template parameter in `gen_asm._get_template_name`. -/
def templateParamKind (p : String) : String :=
  if roundingModes.contains (pyTrim p) then "int"
  else if pyTrim p = "true" ∨ pyTrim p = "false" then "bool"
  else if p.data.any (fun ch => ch = '_' ∨ ch.isAlpha) then "typename"
  else "int"

/-- `gen_asm._get_template_name`: `(template clause?, base name)` of a record's
`asm` field (a missing `asm` is ordered as the empty string, as the source
would crash before reaching this point on such a record). -/
def getTemplateName (insn : Insn) : Option String × String :=
  let name := insn.asm.getD ""
  if ¬ pyContainsChar name '<' then (none, name)
  else
    match breakAtCharAux '<' name.data with
    | none => (none, name)
    | some (before, after) =>
      let inner : List Char := after.take (after.length - 1)
      let tparams := (splitOnCharAux ',' inner).map String.mk
      (some ("template <" ++ pyJoin ", " (tparams.map templateParamKind) ++ ">"), ⟨before⟩)

/-- One pass of `gen_asm._gen_register_read_write_info` for a fixed `usage`
string: emits one effect line per non-implicit general-register operand of a
matching usage, on x86 architectures only. -/
def rwInfoPass (insn : Insn) (arch : String) (usage : String) :
    List Arg → Nat → Except String (List String)
  | [], _ => .ok []
  | a :: rest, n =>
    if is_implicit_reg a.cls then rwInfoPass insn arch usage rest n
    else
      match getArgTypeName a insn.ty with
      | .error e => .error e
      | .ok t =>
        match rwInfoPass insn arch usage rest (n + 1) with
        | .error e => .error e
        | .ok others =>
          if t = "Register" ∧ pyContains arch "x86" = true ∧
              (a.usage = some usage ∨ a.usage = some "use_def") then
            .ok (("  Register" ++ pyCapitalize usage ++ "(arg" ++ natStr n ++ ");") :: others)
          else .ok others

/-- `gen_asm._gen_register_read_write_info`: all use effects, then all def
effects. -/
def genRegisterReadWriteInfo (insn : Insn) (arch : String) : Except String (List String) :=
  match rwInfoPass insn arch "use" insn.args 0 with
  | .error e => .error e
  | .ok us =>
    match rwInfoPass insn arch "def" insn.args 0 with
    | .error e => .error e
    | .ok ds => .ok (us ++ ds)

/-- `gen_asm._is_insn_match`: exact match of mnemonic stem and full operand
list (records of a loaded catalog always carry `asm`). -/
def isInsnMatch (m : Insn) (expectedName : String) (expectedArgs : List Arg) : Bool :=
  m.asm == some expectedName && m.args == expectedArgs

/-- Consecutive renumbering of the non-implicit operands of a list, as done
when forwarding arguments in `gen_asm._gen_emit_shortcut_shift`. -/
def renumberNonImplicit : List Arg → Nat → List String
  | [], _ => []
  | a :: rest, n =>
    if is_implicit_reg a.cls then renumberNonImplicit rest n
    else ("arg" ++ natStr n) :: renumberNonImplicit rest (n + 1)

/-- `gen_asm._gen_emit_shortcut_shift`: on a record with one `Imm8` operand,
guard each catalog sibling `<asm>ByOne` carrying the same operands minus the
immediate. `list.index` raises when no operand equals the bare
`{'class': 'Imm8'}` dictionary. -/
def genEmitShortcutShift (insn : Insn) (insns : List Insn) : Except String (List String) :=
  let nonImmArgs := insn.args.filter (fun a => a.cls ≠ "Imm8")
  match insn.args.findIdx? (fun a => a = (⟨"Imm8", none⟩ : Arg)) with
  | none => .error "ValueError: list.index"
  | some immArgIndex =>
    flatMapExcept (fun m =>
      if isInsnMatch m ((insn.asm.getD "") ++ "ByOne") nonImmArgs then
        Except.ok ["  if (arg" ++ natStr immArgIndex ++ " == 1) return " ++
                   (insn.asm.getD "") ++ "ByOne(" ++
                   pyJoin ", " (renumberNonImplicit nonImmArgs 0) ++ ");"]
      else Except.ok ([] : List String)) insns

/-- `gen_asm._gen_emit_shortcut_accumulator_imm8`: for `*Accumulator` records
with a 16/32-bit immediate, guard the `<stem>Imm8` sibling over the matching
general-register class. -/
def genEmitShortcutAccumulatorImm8 (insn : Insn) (insns : List Insn) :
    Except String (List String) :=
  let insnName := pySliceDropRight (insn.asm.getD "") 11
  match insn.args with
  | [a0, _, a2] =>
    if a2.cls ≠ "FLAGS" then .error "assert: args shape" else
    if a0.cls = "AX" ∨ a0.cls = "EAX" ∨ a0.cls = "RAX" then
      let gregClass :=
        if a0.cls = "AX" then "GeneralReg16"
        else if a0.cls = "EAX" then "GeneralReg32"
        else "GeneralReg64"
      match a0.usage, a2.usage with
      | some u0, some u2 =>
        let maybeArgs : List Arg :=
          [⟨gregClass, some u0⟩, ⟨"Imm8", none⟩, ⟨"FLAGS", some u2⟩]
        flatMapExcept (fun m =>
          if isInsnMatch m (insnName ++ "Imm8") maybeArgs then
            Except.ok ["  if (IsInRange<int8_t>(arg0)) \x7b",
                       "    return " ++ (m.asm.getD "") ++
                       "(DerivedAssemblerType::Accumulator(), static_cast<int8_t>(arg0));",
                       "  \x7d"]
          else Except.ok ([] : List String)) insns
      | _, _ => .error "KeyError: usage"
    else .error "assert: accumulator register class"
  | _ => .error "assert: args shape"

/-- `gen_asm._gen_emit_shortcut_generic_imm8`: replace every `Imm*`-class
operand by a bare `Imm8` operand and guard each catalog sibling named
`<asm>Imm8` with exactly that operand list; the guard tests and narrows the
last generated parameter. -/
def genEmitShortcutGenericImm8 (insn : Insn) (insns : List Insn) :
    Except String (List String) :=
  let maybeArgs : List Arg :=
    insn.args.map (fun a => if pyStartsWith a.cls "Imm" then (⟨"Imm8", none⟩ : Arg) else a)
  let _ := maybeArgs.findIdx (fun a => a = (⟨"Imm8", none⟩ : Arg))
  flatMapExcept (fun m =>
    if isInsnMatch m ((insn.asm.getD "") ++ "Imm8") maybeArgs then
      match getParams insn none with
      | .error e => .error e
      | .ok params =>
        let argCount := (pySplitChar params ',').length
        Except.ok ["  if (IsInRange<int8_t>(arg" ++ natStr (argCount - 1) ++ ")) \x7b",
                   "   return " ++ (m.asm.getD "") ++ "(" ++
                   pyJoin ", " ((List.range argCount).map (fun n =>
                     if n = argCount - 1 then
                       "static_cast<int8_t>(arg" ++ natStr n ++ ")"
                     else "arg" ++ natStr n)) ++ ");",
                   "  \x7d"]
    else Except.ok ([] : List String)) insns

/-- `gen_asm._gen_emit_shortcut_accumulator`: when the first operand is a
general register, guard each catalog sibling named `<asm>Accumulator` whose
first operand is the fixed accumulator of matching width. -/
def genEmitShortcutAccumulator (insn : Insn) (insns : List Insn) :
    Except String (List String) :=
  let a0 := insn.args.headD (⟨"", none⟩ : Arg)
  let accName? : Except String String :=
    if a0.cls = "GeneralReg8" then Except.ok "AL"
    else if a0.cls = "GeneralReg16" then Except.ok "AX"
    else if a0.cls = "GeneralReg32" then Except.ok "EAX"
    else if a0.cls = "GeneralReg64" then Except.ok "RAX"
    else Except.error "KeyError: accumulator name"
  match accName? with
  | .error e => .error e
  | .ok accName =>
    match a0.usage with
    | none => .error "KeyError: usage"
    | some u0 =>
      let maybeArgs : List Arg := (⟨accName, some u0⟩ : Arg) :: insn.args.tail
      flatMapExcept (fun m =>
        if isInsnMatch m ((insn.asm.getD "") ++ "Accumulator") maybeArgs then
          match getParams insn none with
          | .error e => .error e
          | .ok params =>
            let argCount := (pySplitChar params ',').length
            Except.ok ["  if (DerivedAssemblerType::IsAccumulator(arg0)) \x7b",
                       "  return " ++ (m.asm.getD "") ++ "(" ++
                       pyJoin ", " (((List.range argCount).drop 1).map
                         (fun n => "arg" ++ natStr n)) ++ ");",
                       "\x7d"]
        else Except.ok ([] : List String)) insns

/-- `gen_asm._gen_emit_shortcut`: the three shortcut families in their fixed
order. -/
def genEmitShortcut (insn : Insn) (insns : List Insn) : Except String (List String) :=
  match (if exactly_one_of (insn.args.map (fun a => a.cls == "Imm8")) then
           genEmitShortcutShift insn insns
         else Except.ok []) with
  | .error e => .error e
  | .ok p1 =>
    match (if exactly_one_of (insn.args.map (fun a => a.cls == "Imm16" || a.cls == "Imm32")) then
             if pyEndsWith (insn.asm.getD "") "Accumulator" then
               genEmitShortcutAccumulatorImm8 insn insns
             else genEmitShortcutGenericImm8 insn insns
           else Except.ok []) with
    | .error e => .error e
    | .ok p2 =>
      match (if insn.args.length > 1 ∧
                 pyStartsWith ((insn.args.headD (⟨"", none⟩ : Arg)).cls) "GeneralReg" then
               genEmitShortcutAccumulator insn insns
             else Except.ok []) with
      | .error e => .error e
      | .ok p3 => .ok (p1 ++ p2 ++ p3)

/-- The `_ARGUMENT_FORMATS_TO_SIZES` mapping. -/
def argumentFormatsToSizes (c : String) : Option String :=
  if c = "X87Reg" then some "RegisterDefaultBit"
  else if c = "Cond" then some ""
  else if c = "FpReg32" then some "VectorRegister128Bit"
  else if c = "FpReg64" then some "VectorRegister128Bit"
  else if c = "GeneralReg" then some "RegisterDefaultBit"
  else if c = "GeneralReg8" then some "Register8Bit"
  else if c = "GeneralReg16" then some "Register16Bit"
  else if c = "GeneralReg32" then some "Register32Bit"
  else if c = "GeneralReg64" then some "Register64Bit"
  else if c = "Imm2" then some ""
  else if c = "Imm8" then some ""
  else if c = "Imm16" then some ""
  else if c = "Imm32" then some ""
  else if c = "Imm64" then some ""
  else if c = "Mem" then some "MemoryDefaultBit"
  else if c = "Mem8" then some "Memory8Bit"
  else if c = "Mem16" then some "Memory16Bit"
  else if c = "Mem32" then some "Memory32Bit"
  else if c = "Mem64" then some "Memory64Bit"
  else if c = "Mem128" then some "Memory128Bit"
  else if c = "MemX87" then some "MemoryX87"
  else if c = "MemX8716" then some "MemoryX8716Bit"
  else if c = "MemX8732" then some "MemoryX8732Bit"
  else if c = "MemX8764" then some "MemoryX8764Bit"
  else if c = "MemX8780" then some "MemoryX8780Bit"
  else if c = "RegX87" then some "X87Register"
  else if c = "XmmReg" then some "VectorRegister128Bit"
  else if c = "YmmReg" then some "VectorRegister256Bit"
  else if c = "VecMem32" then some "VectorMemory32Bit"
  else if c = "VecMem64" then some "VectorMemory64Bit"
  else if c = "VecMem128" then some "VectorMemory128Bit"
  else if c = "VecMem256" then some "VectorMemory256Bit"
  else if c = "VecReg128" then some "VectorRegister128Bit"
  else if c = "VecReg256" then some "VectorRegister256Bit"
  else none

/-- Hex digit of the opcode regular expressions. -/
def isHexDig (c : Char) : Bool :=
  c.isDigit || (('a' ≤ c) && (c ≤ 'f')) || (('A' ≤ c) && (c ≤ 'F'))

/-- Octal digit of the `^[0-7]$` opcode alternative. -/
def isOctDig (c : Char) : Bool := ('0' ≤ c) && (c ≤ '7')

/-- Conversion of one opcode string to its integer-literal form, mirroring the
regular-expression chain in `gen_asm._gen_generic_functions_h` (a non-matching
opcode hits `assert False`). -/
def processOpcode (oc : String) : Except String String :=
  let d := oc.data
  if d.length = 2 ∧ d.all isHexDig then .ok ("uint8_t\x7b0x" ++ oc ++ "\x7d")
  else if d.length = 4 ∧ d.all isHexDig then .ok ("uint16_t\x7b0x" ++ oc ++ "\x7d")
  else if d.length = 8 ∧ d.all isHexDig then .ok ("uint32_t\x7b0x" ++ oc ++ "\x7d")
  else if d.length = 9 ∧ (d.take 4).all isHexDig ∧ d[4]? = some '_' ∧
      (d.drop 5).all isHexDig then
    .ok ("uint32_t\x7b0x" ++ pyReplace oc "_" "\x27" ++ "\x7d")
  else if d.length = 1 ∧ d.all isOctDig then .ok ("uint8_t\x7b" ++ oc ++ "\x7d")
  else .error "assert False: unsupported opcode format"

/-- Per-operand encoder expressions of `gen_asm._gen_emit_instruction`. -/
def emitInstrArgsGo (insn : Insn) (arch : String) (dynRm : Bool) :
    List Arg → Nat → Except String (List String)
  | [], _ => .ok []
  | a :: rest, n =>
    if is_implicit_reg a.cls then emitInstrArgsGo insn arch dynRm rest n
    else
      match emitInstrArgsGo insn arch dynRm rest (n + 1) with
      | .error e => .error e
      | .ok others =>
        if arch = "common_riscv" ∨ arch = "rv32" ∨ arch = "rv64" then
          if dynRm ∧ a.cls = "Rm" then .ok ("Rounding::kDyn" :: others)
          else .ok (("arg" ++ natStr n) :: others)
        else
          match argumentFormatsToSizes a.cls with
          | some fmt => .ok ((fmt ++ "(arg" ++ natStr n ++ ")") :: others)
          | none => .error "KeyError: argument format"

/-- `gen_asm._gen_emit_instruction`: the single `Emit...Instruction` call line
(the processed opcodes, stored by the source into the record dictionary, are
passed explicitly). -/
def genEmitInstruction (insn : Insn) (arch : String) (processedOpcodes : List String)
    (ripOperand : Bool := false) (dynRm : Bool := false) : Except String (List String) :=
  match emitInstrArgsGo insn arch dynRm insn.args 0 with
  | .error e => .error e
  | .ok res0 =>
    let res := if ripOperand then res0.map (fun s => pyReplace s "Memory" "Label") else res0
    .ok ["  Emit" ++ getCxxName (insn.ty.getD "") ++ "Instruction<" ++
         pyJoin ", " processedOpcodes ++ ">(" ++ pyJoin ", " res ++ ");"]

/-- `gen_asm._gen_instruction_args` (text mode): forwarded argument
expressions, with general registers down-cast through the derived assembler. -/
def genInstructionArgsGo (insn : Insn) (arch : String) :
    List Arg → Nat → Except String (List String)
  | [], _ => .ok []
  | a :: rest, n =>
    if is_implicit_reg a.cls then genInstructionArgsGo insn arch rest n
    else
      match getArgTypeName a insn.ty with
      | .error e => .error e
      | .ok t =>
        match genInstructionArgsGo insn arch rest (n + 1) with
        | .error e => .error e
        | .ok others =>
          if t = "Register" ∧ pyContains arch "x86" = true then
            match argumentFormatsToSizes a.cls with
            | some fmt =>
              .ok (("typename DerivedAssemblerType::" ++ fmt ++ "(arg" ++ natStr n ++ ")")
                   :: others)
            | none => .error "KeyError: argument format"
          else .ok (("arg" ++ natStr n) :: others)

/-- The label-accepting second overload of binary mode (`gen_asm` lines
196-204): emitted when the parameter list contains a plain memory operand and
the architecture namespace contains `x86`. -/
def labelOverloadBlock (insn : Insn) (arch : String) (catalog : List Insn)
    (name params : String) (pocs : List String) : Except String (List String) :=
  if pyContains params "const Operand&" = true ∧ pyContains arch "x86" = true then
    match genEmitShortcut insn catalog with
    | .error e => .error e
    | .ok sc =>
      match genEmitInstruction insn arch pocs true false with
      | .error e => .error e
      | .ok ei =>
        .ok (["", "constexpr void " ++ name ++ "(" ++
              pyReplace params "const Operand&" "const LabelOperand" ++ ") \x7b"] ++
             sc ++ ei ++ ["\x7d", ""])
  else .ok []

/-- The dynamic-rounding overload of binary mode (`gen_asm` lines 205-210). -/
def rmOverloadBlock (insn : Insn) (arch : String) (name params : String)
    (pocs : List String) : Except String (List String) :=
  if pyContains params "Rounding" = true then
    match getParams insn (some (fun a => a.cls == "Rm")) with
    | .error e => .error e
    | .ok p2 =>
      match genEmitInstruction insn arch pocs false true with
      | .error e => .error e
      | .ok ei =>
        .ok (["", "constexpr void " ++ name ++ "(" ++ p2 ++ ") \x7b"] ++ ei ++ ["\x7d", ""])
  else .ok []

/-- The deleted wider-immediate overload of binary mode (`gen_asm` lines
214-223). -/
def immDeleteBlock (tmpl : Option String) (name params : String)
    (immType : Option String) : List String :=
  match immType with
  | some it =>
    if pyContains it "int" then
      (match tmpl with
       | some t => [pySliceDropRight t 1 ++ ", typename ImmType>"]
       | none => ["template<typename ImmType>"]) ++
      ["auto " ++ name ++ "(" ++ pyReplace params it "ImmType" ++
       ") -> std::enable_if_t<std::is_integral_v<ImmType> && sizeof(" ++ it ++
       ") < sizeof(ImmType)> = delete;"]
    else []
  | none => []

/-- Binary-mode body of one record in `gen_asm._gen_generic_functions_h`
(the source's in-place `opcode → opcodes` normalisation is applied first; its
`assert '' not in insn` can never fire as no record carries an empty key). -/
def binaryInsnBody (insn : Insn) (arch : String) (catalog : List Insn)
    (tmpl : Option String) (name params : String) (immType : Option String) :
    Except String (List String) :=
  let opcodesEff := match insn.opcode with | some oc => some [oc] | none => insn.opcodes
  let declPart? : Except String (List String) :=
    match opcodesEff with
    | some ocs =>
      match mapExcept processOpcode ocs with
      | .error e => .error e
      | .ok pocs =>
        match (if pyContains arch "x86" = true then genEmitShortcut insn catalog
               else Except.ok []) with
        | .error e => .error e
        | .ok sc =>
          match genEmitInstruction insn arch pocs false false with
          | .error e => .error e
          | .ok ei =>
            match labelOverloadBlock insn arch catalog name params pocs with
            | .error e => .error e
            | .ok lbl =>
              match rmOverloadBlock insn arch name params pocs with
              | .error e => .error e
              | .ok rmo =>
                Except.ok ((("constexpr void " ++ name ++ "(" ++ params ++ ") \x7b") :: sc ++
                            ei ++ ["\x7d"]) ++ lbl ++ rmo)
    | none => Except.ok ["constexpr void " ++ name ++ "(" ++ params ++ ");"]
  match declPart? with
  | .error e => .error e
  | .ok declPart => .ok (declPart ++ immDeleteBlock tmpl name params immType)

/-- Text-mode body of one record. -/
def textInsnBody (insn : Insn) (arch : String) (name params : String) :
    Except String (List String) :=
  match genInstructionArgsGo insn arch insn.args 0 with
  | .error e => .error e
  | .ok iargs =>
    .ok ["constexpr void " ++ name ++ "(" ++ params ++ ") \x7b",
         "  Instruction(" ++
         pyJoin ", " (("\"" ++ (insn.nativeAsm.getD name) ++ "\"") :: iargs) ++ ");",
         "\x7d"]

/-- Verifier-mode body of one record: header, optional feature line, optional
FLAGS line, then the register read/write effect lines. -/
def verifierInsnBody (insn : Insn) (arch : String) (name params : String) :
    Except String (List String) :=
  match genRegisterReadWriteInfo insn arch with
  | .error e => .error e
  | .ok rw =>
    .ok ((["constexpr void " ++ name ++ "(" ++ params ++ ") \x7b"] ++
          (match insn.feature with
           | some ft => ["  SetRequiredFeature" ++ ft ++ "();"]
           | none => []) ++
          (if insn.args.any (fun a => a.cls == "FLAGS") then ["  SetDefinesFLAGS();"]
           else []) ++
          rw) ++ ["\x7d"])

/-- Mode dispatch of the per-record body. -/
def insnBody (mode : AssemblerMode) (arch : String) (catalog : List Insn) (insn : Insn)
    (tmpl : Option String) (name params : String) (immType : Option String) :
    Except String (List String) :=
  match mode with
  | .binaryAssembler => binaryInsnBody insn arch catalog tmpl name params immType
  | .textAssembler => textInsnBody insn arch name params
  | .verifierAssembler => verifierInsnBody insn arch name params

/-- One iteration of the loop of `gen_asm._gen_generic_functions_h`: the lines
contributed for one record and the updated set of already-described template
functions. Python's `str` of the `{'name': ..., 'params': ...}` dictionary is
injective in the pair, so the set is modelled as a list of pairs. A template
record whose (base name, parameter list) was already described contributes
nothing at all. -/
def processInsn (mode : AssemblerMode) (arch : String) (catalog : List Insn)
    (seen : List (String × String)) (insn : Insn) :
    Except String (List String × List (String × String)) :=
  let (tmpl, name) := getTemplateName insn
  match getParams insn none with
  | .error e => .error e
  | .ok params =>
    match getImmediateType insn with
    | .error e => .error e
    | .ok immType =>
      match tmpl with
      | some t =>
        if (name, params) ∈ seen then .ok ([], seen)
        else
          match insnBody mode arch catalog insn (some t) name params immType with
          | .error e => .error e
          | .ok body => .ok (t :: body, seen ++ [(name, params)])
      | none =>
        match insnBody mode arch catalog insn none name params immType with
        | .error e => .error e
        | .ok body => .ok (body, seen)

/-- The full loop of `gen_asm._gen_generic_functions_h`, returning the
per-record contributions in order. -/
def processInsnsAux (mode : AssemblerMode) (arch : String) (catalog : List Insn) :
    List Insn → List (String × String) → Except String (List (List String))
  | [], _ => .ok []
  | i :: rest, seen =>
    match processInsn mode arch catalog seen i with
    | .error e => .error e
    | .ok (out, seen') =>
      match processInsnsAux mode arch catalog rest seen' with
      | .error e => .error e
      | .ok outs => .ok (out :: outs)

/-- `gen_asm._gen_generic_functions_h` as emitted text lines. -/
def genGenericFunctionsH (mode : AssemblerMode) (arch : String) (insns : List Insn) :
    Except String (List String) :=
  match processInsnsAux mode arch insns insns [] with
  | .error e => .error e
  | .ok outs => .ok outs.flatten

/-- `gen_asm._is_for_asm`. -/
def isForAsm (insn : Insn) : Bool := !insn.skipAsm

/-- `gen_asm._load_asm_defs`: load and drop explicitly disabled records. -/
def loadAsmDefsFiltered (insns : List Insn) : Except String (List Insn) :=
  match loadAsmDefs insns with
  | .error e => .error e
  | .ok l => .ok (l.filter isForAsm)

/-- The fixed preamble printed by the `--using` mode. -/
def usingHeaderLines : List String :=
  ["",
   "#ifndef IMPORT_ASSEMBLER_FUNCTIONS",
   "#error This file is supposed to be included from berberis/intrinsics/macro_assembler-inl.h",
   "#endif",
   ""]

/-- Output lines of the `--using` mode, given the sequence in which iterating
the Python `set` of collected instruction names yields them. That iteration
order is not a function of the set's contents: it depends on the per-process
string hash seed. -/
def usingModeLines (names : List String) : List String :=
  usingHeaderLines ++ names.map (fun n => "using Assembler::" ++ n ++ ";")

/-- The multiset of names the `--using` mode adds to its set: the `asm` field
of every loaded record. -/
def collectUsingNames (defs : List Insn) : List String :=
  defs.filterMap (fun i => i.asm)

/-- The list `e` enumerates, without repetition, exactly the set of names
collected from `defs`. -/
def enumeratesNamesOf (e : List String) (defs : List Insn) : Prop :=
  e.Nodup ∧ (∀ n ∈ e, n ∈ collectUsingNames defs) ∧
    (∀ n ∈ collectUsingNames defs, n ∈ e)

instance (e : List String) (defs : List Insn) : Decidable (enumeratesNamesOf e defs) := by
  unfold enumeratesNamesOf; infer_instance

/-! ### Claim-side definitions -/

/-- Concatenation of a list of strings. -/
def strJoin : List String → String
  | [] => ""
  | x :: xs => x ++ strJoin xs

/-- The catalog identity stated by the specification: the pair of the mnemonic
stem and the ordered operand-class list. -/
def identityPair (i : Insn) : Option String × List String :=
  (i.asm, i.args.map (fun a => a.cls))

/-- A record already in its fully expanded form: `name`, `asm` and `mnemo`
present, no `stems`, no `encodings` and no slash-alternative operand. -/
def plainInsn (i : Insn) : Prop :=
  i.name.isSome = true ∧ i.asm.isSome = true ∧ i.mnemo.isSome = true ∧
  i.stems.getD [] = [] ∧ i.encodings.getD [] = [] ∧
  ∀ a ∈ i.args, pyContainsChar a.cls '/' = false

instance (i : Insn) : Decidable (plainInsn i) := by
  unfold plainInsn; infer_instance

/-- The mnemonic stem: the `asm` field with a trailing `ByCl` stripped. -/
def stemOf (a : String) : String :=
  if pyEndsWith a "ByCl" then pySliceDropRight a 4 else a

/-- The per-operand suffix mapping asserted by the specification's canonical
naming rule: fixed/implicit registers, condition codes and labels contribute
no suffix (`none` marks an unsupported class). -/
def claimedSuffix (am : Option String) (cls : String) : Option String :=
  if is_implicit_reg cls ∨ is_cond cls ∨ is_label cls then some ""
  else if is_greg cls then some "Reg"
  else if is_xreg cls then some "XReg"
  else if is_imm cls then some "Imm"
  else if is_mem_op cls then
    some (match am with | some m => "Mem" ++ m | none => "Op")
  else none

/-- The symbol name predicted by the specification's naming rule. -/
def claimedMacroName (insn : Insn) (am : Option String) : Option String :=
  match insn.asm with
  | none => none
  | some a =>
    if insn.args.all (fun g => (claimedSuffix am g.cls).isSome) then
      some (stemOf a ++ strJoin (insn.args.map (fun g => (claimedSuffix am g.cls).getD "")))
    else none

/-- The per-operand suffix mapping actually implemented: like `claimedSuffix`
except that implicit registers other than `FLAGS` contribute `Reg` exactly as
general registers do. -/
def amendedSuffix (am : Option String) (cls : String) : Option String :=
  if cls = "FLAGS" ∨ is_cond cls ∨ is_label cls then some ""
  else if is_greg cls ∨ is_implicit_reg cls then some "Reg"
  else if is_xreg cls then some "XReg"
  else if is_imm cls then some "Imm"
  else if is_mem_op cls then
    some (match am with | some m => "Mem" ++ m | none => "Op")
  else none

/-- A register-use effect line of the verifier emitter. -/
def isUseLine (l : String) : Prop :=
  ∃ n : Nat, l = "  RegisterUse(arg" ++ natStr n ++ ");"

/-- A register-def effect line of the verifier emitter. -/
def isDefLine (l : String) : Prop :=
  ∃ n : Nat, l = "  RegisterDef(arg" ++ natStr n ++ ");"

/-- The parameter index of the first immediate operand (the position of the
immediate among the non-implicit operands). -/
def immParamIndexGo : List Arg → Nat → Option Nat
  | [], _ => none
  | a :: rest, n =>
    if is_implicit_reg a.cls then immParamIndexGo rest n
    else if is_imm a.cls then some n
    else immParamIndexGo rest (n + 1)

/-- Parameter index of the immediate operand of a record. -/
def immParamIndex (insn : Insn) : Option Nat := immParamIndexGo insn.args 0

/-- The sibling names the shortcut synthesizer searches for a given record:
`<asm>ByOne` (shift family, line 279), `<stem>Imm8` where the stem drops a
trailing `Accumulator` (narrow-immediate family, lines 295/315 and 331) and
`<asm>Accumulator` (accumulator family, line 354). -/
def possibleShortcutTargets (insn : Insn) : List String :=
  let a := insn.asm.getD ""
  [a ++ "ByOne"] ++
  (if pyEndsWith a "Accumulator" then [pySliceDropRight a 11 ++ "Imm8"]
   else [a ++ "Imm8"]) ++
  [a ++ "Accumulator"]

/-- Name relation between a record and any shortcut delegation target: a fixed
suffix is appended, or, for accumulator records, the `Accumulator` suffix is
exchanged for `Imm8`. -/
def nameSpecStep (a b : String) : Prop :=
  b = a ++ "ByOne" ∨ b = a ++ "Imm8" ∨ b = a ++ "Accumulator" ∨
  ∃ s, a = s ++ "Accumulator" ∧ b = s ++ "Imm8"

/-! ### Concrete records used in counterexamples and witnesses -/

/-- A well-formed plain record used to exhibit duplicate loading. -/
def c1Record : Insn :=
  { name := some "AddlRegReg", asm := some "Addl", mnemo := some "ADDL",
    args := [⟨"GeneralReg32", some "use_def"⟩, ⟨"GeneralReg32", some "use"⟩,
             ⟨"FLAGS", some "def"⟩] }

/-- A record whose unique 32-bit immediate operand is the first parameter. -/
def c2Insn : Insn :=
  { name := some "FooImmReg", asm := some "Foo", mnemo := some "FOO",
    args := [⟨"Imm32", some "use"⟩, ⟨"GeneralReg32", some "use"⟩] }

/-- The `Imm8` sibling of `c2Insn` under the synthesizer's matching rule. -/
def c2Sibling : Insn :=
  { name := some "FooImm8Reg", asm := some "FooImm8", mnemo := some "FOOIMM8",
    args := [⟨"Imm8", none⟩, ⟨"GeneralReg32", some "use"⟩] }

/-- Records whose loaded stems are `Addl` and `Subl`. -/
def c3AddInsn : Insn :=
  { name := some "AddlRegReg", asm := some "Addl", mnemo := some "ADDL",
    args := [⟨"GeneralReg32", some "use_def"⟩, ⟨"GeneralReg32", some "use"⟩] }

/-- Companion record of `c3AddInsn`. -/
def c3SubInsn : Insn :=
  { name := some "SublRegReg", asm := some "Subl", mnemo := some "SUBL",
    args := [⟨"GeneralReg32", some "use_def"⟩, ⟨"GeneralReg32", some "use"⟩] }

/-- A record with one implicit accumulator operand and one immediate. -/
def c4Insn : Insn :=
  { asm := some "Movb", args := [⟨"AL", some "use_def"⟩, ⟨"Imm8", none⟩] }

/-- A memory-operand record with opcodes, for the binary emitter. -/
def c5Insn : Insn :=
  { name := some "TestOp", asm := some "Test", mnemo := some "TEST",
    args := [⟨"Mem32", some "use"⟩], opcodes := some ["FF"] }

/-- A record with a def-usage register before a use-usage register. -/
def c6Insn : Insn :=
  { name := some "MovlRegReg", asm := some "Movl", mnemo := some "MOVL",
    args := [⟨"GeneralReg32", some "def"⟩, ⟨"GeneralReg32", some "use"⟩] }

/-- A record whose mnemonic already ends in the specialization suffix `Imm8`. -/
def c7Insn : Insn :=
  { name := some "FooImm8Reg", asm := some "FooImm8", mnemo := some "FOOIMM8",
    args := [⟨"GeneralReg8", some "use_def"⟩, ⟨"Imm8", none⟩] }

/-- A `ByOne` sibling of the specialization-named record `c7Insn`. -/
def c7Sibling : Insn :=
  { name := some "FooImm8ByOneReg", asm := some "FooImm8ByOne", mnemo := some "FOOIMM8BYONE",
    args := [⟨"GeneralReg8", some "use_def"⟩] }

/-- A record carrying only an `asm` stem, for the delegation-name witness. -/
def c7Plain : Insn := { asm := some "Addl" }

/-- A record with one slash-alternative operand. -/
def c8Insn : Insn :=
  { name := some "NegbOp", asm := some "Negb", mnemo := some "NEGB",
    args := [⟨"Mem8/GeneralReg8", some "use_def"⟩, ⟨"FLAGS", some "def"⟩] }

/-- The memory expansion of `c8Insn`. -/
def c8Mem : Insn :=
  { name := some "NegbOp", asm := some "Negb", mnemo := some "NEGB",
    args := [⟨"Mem8", some "use_def"⟩, ⟨"FLAGS", some "def"⟩] }

/-- The register expansion of `c8Insn`. -/
def c8Reg : Insn :=
  { name := some "NegbOp", asm := some "Negb", mnemo := some "NEGB",
    args := [⟨"GeneralReg8", some "use_def"⟩, ⟨"FLAGS", some "def"⟩] }

/-- A record with two slash-alternative operands. -/
def c8Bad : Insn :=
  { name := some "NegbOp", asm := some "Negb", mnemo := some "NEGB",
    args := [⟨"Mem8/GeneralReg8", some "use_def"⟩, ⟨"Mem16/GeneralReg16", some "def"⟩] }

/-- A record whose `Imm8` operand is preceded by an implicit register. -/
def c9Insn : Insn :=
  { name := some "FooImm", asm := some "Foo", mnemo := some "FOO",
    args := [⟨"RCX", some "use"⟩, ⟨"Imm8", none⟩] }

/-- The `ByOne` sibling of `c9Insn`. -/
def c9Sibling : Insn :=
  { name := some "FooByOne", asm := some "FooByOne", mnemo := some "FOOBYONE",
    args := [⟨"RCX", some "use"⟩] }

/-- A canonical shift record used in witnesses. -/
def c9Shlb : Insn :=
  { name := some "ShlbRegImm", asm := some "Shlb", mnemo := some "SHLB",
    args := [⟨"GeneralReg8", some "use_def"⟩, ⟨"Imm8", none⟩, ⟨"FLAGS", some "def"⟩] }

/-- The `ByOne` sibling of `c9Shlb`. -/
def c9ShlbByOne : Insn :=
  { name := some "ShlbByOneReg", asm := some "ShlbByOne", mnemo := some "SHLBBYONE",
    args := [⟨"GeneralReg8", some "use_def"⟩, ⟨"FLAGS", some "def"⟩] }

/-- A canonical narrow-immediate record used in witnesses. -/
def c2Addw : Insn :=
  { name := some "AddwRegImm", asm := some "Addw", mnemo := some "ADDW",
    args := [⟨"GeneralReg16", some "use_def"⟩, ⟨"Imm16", none⟩, ⟨"FLAGS", some "def"⟩] }

/-- The `Imm8` sibling of `c2Addw`. -/
def c2AddwImm8 : Insn :=
  { name := some "AddwRegImm8", asm := some "AddwImm8", mnemo := some "ADDWIMM8",
    args := [⟨"GeneralReg16", some "use_def"⟩, ⟨"Imm8", none⟩, ⟨"FLAGS", some "def"⟩] }

/-- A template record (its mnemonic contains `<`). -/
def c10Insn : Insn :=
  { name := some "MacroVTblReg", asm := some "MacroVTbl<15>", mnemo := some "MACRO",
    args := [⟨"GeneralReg32", some "use"⟩] }

/-- The binary-mode lines emitted for `c5Insn` under the `x86_32` namespace. -/
def c5Lines : List String :=
  ["constexpr void Test([[maybe_unused]] const Operand& arg0) \x7b",
   "  EmitInstruction<uint8_t\x7b0xFF\x7d>(Memory32Bit(arg0));",
   "\x7d",
   "",
   "constexpr void Test([[maybe_unused]] const LabelOperand arg0) \x7b",
   "  EmitInstruction<uint8_t\x7b0xFF\x7d>(Label32Bit(arg0));",
   "\x7d",
   ""]

/-- The verifier-mode lines emitted for `c6Insn` under the `x86_64`
namespace. -/
def c6Lines : List String :=
  ["constexpr void Movl([[maybe_unused]] Register arg0, [[maybe_unused]] Register arg1) \x7b",
   "  RegisterUse(arg1);",
   "  RegisterDef(arg0);",
   "\x7d"]

/-- The lines contributed by the first occurrence of `c10Insn` in text mode. -/
def c10Lines : List String :=
  ["template <int>",
   "constexpr void MacroVTbl([[maybe_unused]] Register arg0) \x7b",
   "  Instruction(\"MacroVTbl\", typename DerivedAssemblerType::Register32Bit(arg0));",
   "\x7d"]

/-! ### General helper lemmas -/

theorem data_append (a b : String) : (a ++ b).data = a.data ++ b.data := by
  cases a; cases b; rfl

theorem string_ext {a b : String} (h : a.data = b.data) : a = b := by
  cases a; cases b; cases h; rfl

theorem str_append_empty (s : String) : s ++ "" = s :=
  string_ext (by rw [data_append]; simp)

theorem ne_append_of_ne_pref {p q : String} (hl : p.data.length = q.data.length)
    (hne : p ≠ q) (a b : String) : p ++ a ≠ q ++ b := by
  intro h
  apply hne
  apply string_ext
  have hd : p.data ++ a.data = q.data ++ b.data := by
    have h2 := congrArg String.data h
    rwa [data_append, data_append] at h2
  exact List.append_inj_left hd hl

theorem pyEndsWith_split {s suf : String} (h : pyEndsWith s suf = true) :
    pySliceDropRight s suf.data.length ++ suf = s := by
  unfold pyEndsWith at h
  rw [Bool.and_eq_true, decide_eq_true_eq, beq_iff_eq] at h
  obtain ⟨_, h2⟩ := h
  apply string_ext
  rw [data_append]
  show (s.data.take (s.data.length - suf.data.length)) ++ suf.data = s.data
  conv_rhs => rw [← List.take_append_drop (s.data.length - suf.data.length) s.data]
  rw [h2]

theorem mapExcept_ok_of_forall {α β : Type} {f : α → Except String β} {g : α → β}
    (l : List α) (h : ∀ x ∈ l, f x = .ok (g x)) : mapExcept f l = .ok (l.map g) := by
  induction l with
  | nil => rfl
  | cons x xs ih =>
    have hx := h x (List.mem_cons_self x xs)
    have hxs := ih (fun y hy => h y (List.mem_cons_of_mem _ hy))
    simp [mapExcept, hx, hxs]

theorem flatten_map_singleton {α : Type} (l : List α) :
    (l.map (fun a => [a])).flatten = l := by
  induction l with
  | nil => rfl
  | cons x xs ih => simp [ih]

/-! ### Loader lemmas -/

theorem expandOperandsGo_no_slash (insn : Insn) :
    ∀ (args pre : List Arg) (sd : Bool) (acc : List Insn),
    (∀ a ∈ args, pyContainsChar a.cls '/' = false) →
    expandOperandsGo insn args pre sd acc = if sd then .ok acc else .ok [insn] := by
  intro args
  induction args with
  | nil => intro pre sd acc _; rfl
  | cons a rest ih =>
    intro pre sd acc h
    have ha := h a (List.mem_cons_self a rest)
    simp only [expandOperandsGo, ha, Bool.false_eq_true, if_false]
    exact ih (a :: pre) sd acc (fun x hx => h x (List.mem_cons_of_mem _ hx))

theorem expandOperandsOne_plain {i : Insn}
    (h : ∀ a ∈ i.args, pyContainsChar a.cls '/' = false) :
    expandOperandsOne i = .ok [i] := by
  unfold expandOperandsOne
  rw [expandOperandsGo_no_slash i i.args [] false [] h]
  rfl

theorem expandOneByEncodings_plain {i : Insn} (h : plainInsn i) :
    expandOneByEncodings i = .ok [i] := by
  obtain ⟨h1, h2, h3, h4, h5, _⟩ := h
  simp [expandOneByEncodings, h1, h2, h3, h4, h5]

theorem c1_loader_no_dedup_aux (insns : List Insn) (h : ∀ i ∈ insns, plainInsn i) :
    loadAsmDefs insns = .ok (sortByAsm insns) := by
  have h1 : expandInsnsByOperands insns = .ok insns := by
    unfold expandInsnsByOperands
    rw [mapExcept_ok_of_forall (g := fun i => [i]) insns
        (fun i hi => expandOperandsOne_plain (h i hi).2.2.2.2.2)]
    show Except.ok (insns.map (fun i => [i])).flatten = _
    rw [flatten_map_singleton]
  have h2 : expandInsnByEncodings insns = .ok insns := by
    unfold expandInsnByEncodings
    rw [mapExcept_ok_of_forall (g := fun i => [i]) insns
        (fun i hi => expandOneByEncodings_plain (h i hi))]
    show Except.ok (insns.map (fun i => [i])).flatten = _
    rw [flatten_map_singleton]
  unfold loadAsmDefs
  rw [h1]
  show (match expandInsnByEncodings insns with
        | Except.error e => Except.error e
        | Except.ok b => Except.ok (sortByAsm b)) = _
  rw [h2]

/-! ### Claim theorems -/

/-- Claim C1, counterexample: feeding the loader two records with the same
(mnemonic, operand-class-sequence) identity does not abort the run — it
succeeds and returns a catalog containing the identity twice. No duplicate
detection exists anywhere in `load_asm_defs`. -/
theorem c1_counterexample :
    loadAsmDefs [c1Record, c1Record] = .ok [c1Record, c1Record] ∧
    identityPair c1Record = (some "Addl", ["GeneralReg32", "GeneralReg32", "FLAGS"]) := by
  decide

/-- Claim C1 (amended): the loader applies operand expansion, family expansion
and the final sort only and performs no duplicate detection at all: for every
input of fully expanded records it returns exactly the sorted input, so
records sharing a (mnemonic, operand-class-sequence) identity are all retained
and the run never aborts because of a collision. -/
theorem c1_loader_keeps_duplicates (insns : List Insn) (h : ∀ i ∈ insns, plainInsn i) :
    loadAsmDefs insns = .ok (sortByAsm insns) :=
  c1_loader_no_dedup_aux insns h

/-- Witness for `c1_loader_keeps_duplicates` at a concrete duplicated input. -/
theorem c1_loader_keeps_duplicates_witness :
    loadAsmDefs [c1Record, c1Record] = .ok (sortByAsm [c1Record, c1Record]) :=
  c1_loader_keeps_duplicates [c1Record, c1Record] (by decide)

/-- Claim C3: in `--using` mode the emitted `using Assembler::...;` lines
follow the iteration order of a Python string set, which is not determined by
the set's contents (it varies with the per-process hash seed): two
enumerations of the same collected name set produce different output text, so
byte-identical output across process invocations is not guaranteed. -/
theorem c3_using_mode_order_dependent :
    enumeratesNamesOf ["Addl", "Subl"] [c3AddInsn, c3SubInsn] ∧
    enumeratesNamesOf ["Subl", "Addl"] [c3AddInsn, c3SubInsn] ∧
    usingModeLines ["Addl", "Subl"] ≠ usingModeLines ["Subl", "Addl"] := by
  decide

/-- Claim C4, counterexample: on a record whose first operand is the fixed
register `AL`, the generated name is `MovbRegImm` — the implicit register
contributes a `Reg` suffix — while the specification's rule (fixed/implicit
registers contribute no suffix) predicts `MovbImm`. -/
theorem c4_counterexample :
    getMemMacroName c4Insn none = .ok "MovbRegImm" ∧
    claimedMacroName c4Insn none = some "MovbImm" ∧
    ("MovbRegImm" : String) ≠ "MovbImm" := by decide

theorem memMacroSuffixStep_amended (am : Option String) (acc : String) (cls : String)
    (h : (amendedSuffix am cls).isSome = true) :
    memMacroSuffixStep am acc cls = .ok (acc ++ (amendedSuffix am cls).getD "") := by
  unfold memMacroSuffixStep amendedSuffix at *
  split_ifs at h ⊢ <;> simp_all [str_append_empty]

theorem memMacroLoop_amended (am : Option String) :
    ∀ (args : List Arg) (acc : String),
    (∀ g ∈ args, (amendedSuffix am g.cls).isSome = true) →
    memMacroLoop am acc args =
      .ok (acc ++ strJoin (args.map (fun g => (amendedSuffix am g.cls).getD ""))) := by
  intro args
  induction args with
  | nil => intro acc _; simp [memMacroLoop, strJoin, str_append_empty]
  | cons g rest ih =>
    intro acc h
    rw [memMacroLoop, memMacroSuffixStep_amended am acc g.cls (h g (List.mem_cons_self g rest))]
    show memMacroLoop am (acc ++ (amendedSuffix am g.cls).getD "") rest = _
    rw [ih _ (fun x hx => h x (List.mem_cons_of_mem _ hx))]
    simp [strJoin, String.append_assoc]

/-- Claim C4 (amended): the generated symbol name is the `ByCl`-stripped
mnemonic stem followed by one suffix per operand determined solely by operand
class — but implicit/fixed registers other than `FLAGS` contribute `Reg`
exactly as general registers do; only `FLAGS`, condition codes and labels
contribute no suffix. -/
theorem c4_name_derivation_amended (insn : Insn) (am : Option String) (a : String)
    (ha : insn.asm = some a)
    (hs : ∀ g ∈ insn.args, (amendedSuffix am g.cls).isSome = true) :
    getMemMacroName insn am =
      .ok (stemOf a ++ strJoin (insn.args.map (fun g => (amendedSuffix am g.cls).getD ""))) := by
  unfold getMemMacroName
  rw [ha]
  exact memMacroLoop_amended am insn.args (stemOf a) hs

/-- Witness for `c4_name_derivation_amended` at a concrete record. -/
theorem c4_name_derivation_amended_witness :
    getMemMacroName c4Insn none =
      .ok (stemOf "Movb" ++
           strJoin (c4Insn.args.map (fun g => (amendedSuffix none g.cls).getD ""))) :=
  c4_name_derivation_amended c4Insn none "Movb" rfl (by decide)

theorem expandOperandsGo_skip (insn : Insn) :
    ∀ (seg rest pre : List Arg) (sd : Bool) (acc : List Insn),
    (∀ a ∈ seg, pyContainsChar a.cls '/' = false) →
    expandOperandsGo insn (seg ++ rest) pre sd acc =
      expandOperandsGo insn rest (seg.reverse ++ pre) sd acc := by
  intro seg
  induction seg with
  | nil => intro rest pre sd acc _; simp
  | cons a s ih =>
    intro rest pre sd acc h
    have ha := h a (List.mem_cons_self a s)
    simp only [List.cons_append, expandOperandsGo, ha, Bool.false_eq_true, if_false]
    have hr : (a :: s).reverse ++ pre = s.reverse ++ (a :: pre) := by
      simp [List.append_assoc]
    rw [hr]
    exact ih rest (a :: pre) sd acc (fun x hx => h x (List.mem_cons_of_mem _ hx))

/-- Claim C8: expanding a record whose unique slash operand lists k
alternatives yields exactly the k records obtained by substituting each
alternative into that slot, while a second slash operand aborts the whole run
with the `split_done` assertion. -/
theorem c8_alternative_operand_expansion :
    (∀ (insn : Insn) (pre post : List Arg) (g : Arg),
      insn.args = pre ++ g :: post →
      (∀ x ∈ pre, pyContainsChar x.cls '/' = false) →
      (∀ x ∈ post, pyContainsChar x.cls '/' = false) →
      pyContainsChar g.cls '/' = true →
      expandInsnsByOperands [insn] =
        .ok ((pySplitChar g.cls '/').map
          (fun sc => { insn with args := pre ++ (⟨sc, g.usage⟩ : Arg) :: post }))) ∧
    (∀ (insn : Insn) (pre mid post : List Arg) (g1 g2 : Arg),
      insn.args = pre ++ g1 :: (mid ++ g2 :: post) →
      (∀ x ∈ pre, pyContainsChar x.cls '/' = false) →
      (∀ x ∈ mid, pyContainsChar x.cls '/' = false) →
      pyContainsChar g1.cls '/' = true →
      pyContainsChar g2.cls '/' = true →
      expandInsnsByOperands [insn] = .error "assert not split_done") := by
  constructor
  · intro insn pre post g hargs hpre hpost hg
    have hone : expandOperandsOne insn =
        .ok ((pySplitChar g.cls '/').map
          (fun sc => { insn with args := pre ++ (⟨sc, g.usage⟩ : Arg) :: post })) := by
      unfold expandOperandsOne
      rw [hargs, expandOperandsGo_skip insn pre (g :: post) [] false [] hpre]
      simp only [expandOperandsGo, hg, if_true]
      rw [expandOperandsGo_no_slash insn post _ true _ hpost]
      simp [List.reverse_reverse, List.append_nil]
    unfold expandInsnsByOperands
    simp [mapExcept, hone]
  · intro insn pre mid post g1 g2 hargs hpre hmid hg1 hg2
    have hone : expandOperandsOne insn = .error "assert not split_done" := by
      unfold expandOperandsOne
      rw [hargs, expandOperandsGo_skip insn pre (g1 :: (mid ++ g2 :: post)) [] false [] hpre]
      simp only [expandOperandsGo, hg1, if_true]
      rw [expandOperandsGo_skip insn mid (g2 :: post) _ true _ hmid]
      simp only [expandOperandsGo, hg2, if_true]
      rfl
    unfold expandInsnsByOperands
    simp [mapExcept, hone]

/-- Witness for `c8_alternative_operand_expansion` at the spec's
`Mem8/GeneralReg8` example and at a two-slash record. -/
theorem c8_alternative_operand_expansion_witness :
    expandInsnsByOperands [c8Insn] = .ok [c8Mem, c8Reg] ∧
    expandInsnsByOperands [c8Bad] = .error "assert not split_done" := by
  constructor
  · have h := c8_alternative_operand_expansion.1 c8Insn []
      [⟨"FLAGS", some "def"⟩] ⟨"Mem8/GeneralReg8", some "use_def"⟩ rfl
      (by decide) (by decide) (by decide)
    rw [h]; decide
  · exact c8_alternative_operand_expansion.2 c8Bad [] [] []
      ⟨"Mem8/GeneralReg8", some "use_def"⟩ ⟨"Mem16/GeneralReg16", some "def"⟩ rfl
      (by decide) (by decide) (by decide) (by decide)

/-- Claim C7, counterexample: a record whose mnemonic already ends in the
designated specialization suffix `Imm8` does receive a shortcut guard when a
matching `ByOne` sibling exists — no specialization-based exclusion is
implemented. -/
theorem c7_counterexample :
    genEmitShortcut c7Insn [c7Insn, c7Sibling] =
      .ok ["  if (arg1 == 1) return FooImm8ByOne(arg0);"] ∧
    pyEndsWith (c7Insn.asm.getD "") "Imm8" = true := by decide

theorem nameSpecStep_len {a b : String} (h : nameSpecStep a b) :
    b.length = a.length + 5 ∨ b.length = a.length + 4 ∨ b.length = a.length + 11 ∨
    a.length = b.length + 7 := by
  have l5 : ("ByOne" : String).length = 5 := by decide
  have l4 : ("Imm8" : String).length = 4 := by decide
  have l11 : ("Accumulator" : String).length = 11 := by decide
  rcases h with h | h | h | ⟨s, h1, h2⟩
  · left; rw [h, String.length_append, l5]
  · right; left; rw [h, String.length_append, l4]
  · right; right; left; rw [h, String.length_append, l11]
  · right; right; right
    rw [h1, h2, String.length_append, String.length_append, l4, l11]

/-- Claim C7 (amended): the synthesizer implements no exclusion of
specialization-named records (see the counterexample) — instead, every sibling
name it searches relates to the record's mnemonic by appending `ByOne`,
`Imm8` or `Accumulator`, or by exchanging a trailing `Accumulator` for
`Imm8`; no two such steps are mutually inverse, so a record and its
specialization can never delegate to each other. -/
theorem c7_no_specialization_exclusion_amended :
    (∀ (insn : Insn) (t : String), t ∈ possibleShortcutTargets insn →
      nameSpecStep (insn.asm.getD "") t) ∧
    (∀ a b : String, nameSpecStep a b → ¬ nameSpecStep b a) := by
  constructor
  · intro insn t ht
    unfold possibleShortcutTargets at ht
    by_cases he : pyEndsWith (insn.asm.getD "") "Accumulator" = true
    · simp only [he, if_true, List.cons_append, List.nil_append, List.mem_cons,
        List.not_mem_nil, or_false] at ht
      rcases ht with rfl | rfl | rfl
      · exact Or.inl rfl
      · right; right; right
        refine ⟨pySliceDropRight (insn.asm.getD "") 11, ?_, rfl⟩
        have h2 := pyEndsWith_split he
        exact h2.symm
      · exact Or.inr (Or.inr (Or.inl rfl))
    · simp only [he, if_false, Bool.false_eq_true, List.cons_append, List.nil_append,
        List.mem_cons, List.not_mem_nil, or_false] at ht
      rcases ht with rfl | rfl | rfl
      · exact Or.inl rfl
      · exact Or.inr (Or.inl rfl)
      · exact Or.inr (Or.inr (Or.inl rfl))
  · intro a b hab hba
    rcases nameSpecStep_len hab with h1 | h1 | h1 | h1 <;>
      rcases nameSpecStep_len hba with h2 | h2 | h2 | h2 <;> omega

/-- Witness for `c7_no_specialization_exclusion_amended`: a concrete searched
name is one name-step away, and the reverse step is impossible. -/
theorem c7_no_specialization_exclusion_amended_witness :
    nameSpecStep (c7Plain.asm.getD "") ("Addl" ++ "ByOne") ∧
    ¬ nameSpecStep ("Addl" ++ "ByOne") "Addl" :=
  ⟨c7_no_specialization_exclusion_amended.1 c7Plain ("Addl" ++ "ByOne") (by decide),
   c7_no_specialization_exclusion_amended.2 "Addl" ("Addl" ++ "ByOne") (Or.inl rfl)⟩

/-! ### Shortcut-family characterisations -/

theorem flatMapExcept_if {α : Type} (p : α → Bool) (g : α → List String) (l : List α) :
    flatMapExcept (fun m => if p m then Except.ok (g m) else Except.ok []) l =
      Except.ok (((l.filter p).map g).flatten) := by
  induction l with
  | nil => rfl
  | cons x xs ih =>
    by_cases hp : p x = true
    · simp [flatMapExcept, hp, ih, List.filter_cons]
    · simp [flatMapExcept, hp, ih, List.filter_cons]

theorem isInsnMatch_true {m : Insn} {n : String} {ar : List Arg}
    (h : isInsnMatch m n ar = true) : m.asm = some n ∧ m.args = ar := by
  unfold isInsnMatch at h
  rw [Bool.and_eq_true, beq_iff_eq, beq_iff_eq] at h
  exact h

theorem genericImm8_char (R : Insn) (a ps : String) (ha : R.asm = some a)
    (sibArgs : List Arg)
    (hmaybe : R.args.map
      (fun g => if pyStartsWith g.cls "Imm" then (⟨"Imm8", none⟩ : Arg) else g) = sibArgs)
    (hps : getParams R none = .ok ps) (insns : List Insn) :
    genEmitShortcutGenericImm8 R insns =
      Except.ok (((insns.filter (fun m => isInsnMatch m (a ++ "Imm8") sibArgs)).map (fun m =>
        ["  if (IsInRange<int8_t>(arg" ++ natStr ((pySplitChar ps ',').length - 1) ++ ")) \x7b",
         "   return " ++ (m.asm.getD "") ++ "(" ++
           pyJoin ", " ((List.range (pySplitChar ps ',').length).map (fun n =>
             if n = (pySplitChar ps ',').length - 1 then
               "static_cast<int8_t>(arg" ++ natStr n ++ ")"
             else "arg" ++ natStr n)) ++ ");",
         "  \x7d"])).flatten) := by
  simp only [genEmitShortcutGenericImm8]
  have hfun : (fun (m : Insn) =>
      if isInsnMatch m ((R.asm.getD "") ++ "Imm8")
          (R.args.map
            (fun g => if pyStartsWith g.cls "Imm" then (⟨"Imm8", none⟩ : Arg) else g)) then
        match getParams R none with
        | .error e => .error e
        | .ok params =>
          Except.ok ["  if (IsInRange<int8_t>(arg" ++
                     natStr ((pySplitChar params ',').length - 1) ++ ")) \x7b",
                     "   return " ++ (m.asm.getD "") ++ "(" ++
                     pyJoin ", " ((List.range (pySplitChar params ',').length).map (fun n =>
                       if n = (pySplitChar params ',').length - 1 then
                         "static_cast<int8_t>(arg" ++ natStr n ++ ")"
                       else "arg" ++ natStr n)) ++ ");",
                     "  \x7d"]
      else Except.ok []) =
    (fun (m : Insn) =>
      if isInsnMatch m (a ++ "Imm8") sibArgs then
        Except.ok ["  if (IsInRange<int8_t>(arg" ++
                   natStr ((pySplitChar ps ',').length - 1) ++ ")) \x7b",
                   "   return " ++ (m.asm.getD "") ++ "(" ++
                   pyJoin ", " ((List.range (pySplitChar ps ',').length).map (fun n =>
                     if n = (pySplitChar ps ',').length - 1 then
                       "static_cast<int8_t>(arg" ++ natStr n ++ ")"
                     else "arg" ++ natStr n)) ++ ");",
                   "  \x7d"]
      else Except.ok []) := by
    funext m
    rw [ha, hmaybe, hps]
    rfl
  rw [hfun, flatMapExcept_if]

theorem shiftGuard_char (R : Insn) (a : String) (ha : R.asm = some a)
    (nonImm : List Arg) (hnon : R.args.filter (fun g => g.cls ≠ "Imm8") = nonImm)
    (idx : Nat) (hidx : R.args.findIdx? (fun g => g = (⟨"Imm8", none⟩ : Arg)) = some idx)
    (insns : List Insn) :
    genEmitShortcutShift R insns =
      Except.ok (((insns.filter (fun m => isInsnMatch m (a ++ "ByOne") nonImm)).map (fun _ =>
        ["  if (arg" ++ natStr idx ++ " == 1) return " ++ a ++ "ByOne(" ++
         pyJoin ", " (renumberNonImplicit nonImm 0) ++ ");"])).flatten) := by
  simp only [genEmitShortcutShift, hnon, hidx]
  have hfun : ((fun (m : Insn) =>
      if isInsnMatch m ((R.asm.getD "") ++ "ByOne") nonImm then
        Except.ok ["  if (arg" ++ natStr idx ++ " == 1) return " ++ (R.asm.getD "") ++
                   "ByOne(" ++ pyJoin ", " (renumberNonImplicit nonImm 0) ++ ");"]
      else Except.ok []) : Insn → Except String (List String)) =
    ((fun (m : Insn) =>
      if isInsnMatch m (a ++ "ByOne") nonImm then
        Except.ok ["  if (arg" ++ natStr idx ++ " == 1) return " ++ a ++
                   "ByOne(" ++ pyJoin ", " (renumberNonImplicit nonImm 0) ++ ");"]
      else Except.ok []) : Insn → Except String (List String)) := by
    funext m
    rw [ha]
    rfl
  rw [hfun, flatMapExcept_if]

theorem c2_case (a ur fu : String) (iu : Option String) (rc ic ps : String)
    (insns : List Insn)
    (hps : getParams
      { asm := some a, args := [⟨rc, some ur⟩, ⟨ic, iu⟩, ⟨"FLAGS", some fu⟩] } none = .ok ps)
    (hcnt : (pySplitChar ps ',').length = 2)
    (hmaybe : ([⟨rc, some ur⟩, ⟨ic, iu⟩, ⟨"FLAGS", some fu⟩] : List Arg).map
      (fun g => if pyStartsWith g.cls "Imm" then (⟨"Imm8", none⟩ : Arg) else g) =
      [⟨rc, some ur⟩, ⟨"Imm8", none⟩, ⟨"FLAGS", some fu⟩]) :
    ((insns.filter (fun m => isInsnMatch m (a ++ "Imm8")
        [⟨rc, some ur⟩, ⟨"Imm8", none⟩, ⟨"FLAGS", some fu⟩])).length = 1 →
      genEmitShortcutGenericImm8
        { asm := some a, args := [⟨rc, some ur⟩, ⟨ic, iu⟩, ⟨"FLAGS", some fu⟩] } insns =
        .ok ["  if (IsInRange<int8_t>(arg1)) \x7b",
             "   return " ++ (a ++ "Imm8") ++ "(" ++ "arg0, static_cast<int8_t>(arg1)" ++ ");",
             "  \x7d"]) ∧
    ((insns.filter (fun m => isInsnMatch m (a ++ "Imm8")
        [⟨rc, some ur⟩, ⟨"Imm8", none⟩, ⟨"FLAGS", some fu⟩])).length = 0 →
      genEmitShortcutGenericImm8
        { asm := some a, args := [⟨rc, some ur⟩, ⟨ic, iu⟩, ⟨"FLAGS", some fu⟩] } insns =
        .ok []) := by
  have hchar := genericImm8_char
    { asm := some a, args := [⟨rc, some ur⟩, ⟨ic, iu⟩, ⟨"FLAGS", some fu⟩] } a ps rfl
    [⟨rc, some ur⟩, ⟨"Imm8", none⟩, ⟨"FLAGS", some fu⟩] hmaybe hps insns
  simp only [hcnt] at hchar
  constructor
  · intro hcount
    obtain ⟨m, hm⟩ := List.length_eq_one.mp hcount
    have hmem : m ∈ insns.filter (fun m => isInsnMatch m (a ++ "Imm8")
        [⟨rc, some ur⟩, ⟨"Imm8", none⟩, ⟨"FLAGS", some fu⟩]) := by
      rw [hm]; exact List.mem_cons_self m []
    obtain ⟨hasm, _⟩ := isInsnMatch_true (List.mem_filter.mp hmem).2
    rw [hchar, hm]
    simp only [List.map_cons, List.map_nil, List.flatten_cons, List.flatten_nil,
      List.append_nil, hasm, Option.getD_some]
    rfl
  · intro hcount
    rw [hchar, List.length_eq_zero.mp hcount]
    rfl

/-- Claim C2, counterexample: on a record whose unique `Imm32` operand is the
first parameter (`arg0`), the emitted narrow-immediate guard tests and narrows
the last parameter `arg1` — which is the register, not the immediate — and no
guard testing the immediate parameter is emitted. The guard's target index is
simply `len(params) - 1`, not the immediate's position. -/
theorem c2_counterexample :
    genEmitShortcut c2Insn [c2Insn, c2Sibling] =
      .ok ["  if (IsInRange<int8_t>(arg1)) \x7b",
           "   return FooImm8(arg0, static_cast<int8_t>(arg1));",
           "  \x7d"] ∧
    immParamIndex c2Insn = some 0 ∧
    ¬ ("  if (IsInRange<int8_t>(arg0)) \x7b" ∈
        ["  if (IsInRange<int8_t>(arg1)) \x7b",
         "   return FooImm8(arg0, static_cast<int8_t>(arg1));",
         "  \x7d"]) := by decide

/-- Claim C2 (amended): for a record of the canonical shape (one
general-register operand, then the unique `Imm16`/`Imm32` operand — the last
non-implicit operand — then `FLAGS`), the narrow-immediate family of the
synthesizer (invoked when the mnemonic does not end in `Accumulator`) emits
exactly one guard when the catalog contains exactly one `<mnemonic>Imm8`
sibling with that immediate replaced by a bare `Imm8` operand: the guard tests
whether the last parameter — here the immediate parameter `arg1` — fits in a
signed 8-bit range and delegates with that argument narrowed by a
`static_cast<int8_t>`; with no such sibling, zero narrow-immediate guards are
emitted. -/
theorem c2_narrow_imm_amended (a ur fu : String) (iu : Option String) (rc ic : String)
    (insns : List Insn)
    (hrc : rc ∈ (["GeneralReg", "GeneralReg8", "GeneralReg16", "GeneralReg32",
                  "GeneralReg64"] : List String))
    (hic : ic = "Imm16" ∨ ic = "Imm32") :
    immParamIndex
      { asm := some a, args := [⟨rc, some ur⟩, ⟨ic, iu⟩, ⟨"FLAGS", some fu⟩] } = some 1 ∧
    ((insns.filter (fun m => isInsnMatch m (a ++ "Imm8")
        [⟨rc, some ur⟩, ⟨"Imm8", none⟩, ⟨"FLAGS", some fu⟩])).length = 1 →
      genEmitShortcutGenericImm8
        { asm := some a, args := [⟨rc, some ur⟩, ⟨ic, iu⟩, ⟨"FLAGS", some fu⟩] } insns =
        .ok ["  if (IsInRange<int8_t>(arg1)) \x7b",
             "   return " ++ (a ++ "Imm8") ++ "(" ++ "arg0, static_cast<int8_t>(arg1)" ++ ");",
             "  \x7d"]) ∧
    ((insns.filter (fun m => isInsnMatch m (a ++ "Imm8")
        [⟨rc, some ur⟩, ⟨"Imm8", none⟩, ⟨"FLAGS", some fu⟩])).length = 0 →
      genEmitShortcutGenericImm8
        { asm := some a, args := [⟨rc, some ur⟩, ⟨ic, iu⟩, ⟨"FLAGS", some fu⟩] } insns =
        .ok []) := by
  have hrc' : rc = "GeneralReg" ∨ rc = "GeneralReg8" ∨ rc = "GeneralReg16" ∨
      rc = "GeneralReg32" ∨ rc = "GeneralReg64" := by simpa using hrc
  rcases hrc' with rfl | rfl | rfl | rfl | rfl <;> rcases hic with rfl | rfl <;>
    exact ⟨rfl, c2_case a ur fu iu _ _ _ insns rfl rfl rfl⟩

/-- Witness for `c2_narrow_imm_amended` at the spec's `Addw`/`AddwImm8`
scenario. -/
theorem c2_narrow_imm_amended_witness :
    genEmitShortcutGenericImm8
      { asm := some "Addw",
        args := [⟨"GeneralReg16", some "use_def"⟩, ⟨"Imm16", none⟩, ⟨"FLAGS", some "def"⟩] }
      [c2Addw, c2AddwImm8] =
      .ok ["  if (IsInRange<int8_t>(arg1)) \x7b",
           "   return " ++ ("Addw" ++ "Imm8") ++ "(" ++
             "arg0, static_cast<int8_t>(arg1)" ++ ");",
           "  \x7d"] :=
  (c2_narrow_imm_amended "Addw" "use_def" "def" none "GeneralReg16" "Imm16"
    [c2Addw, c2AddwImm8] (by decide) (Or.inl rfl)).2.1 (by decide)

theorem c9_case (a ur fu : String) (rc : String) (insns : List Insn)
    (hnon : ([⟨rc, some ur⟩, ⟨"Imm8", none⟩, ⟨"FLAGS", some fu⟩] : List Arg).filter
      (fun g => g.cls ≠ "Imm8") = [⟨rc, some ur⟩, ⟨"FLAGS", some fu⟩])
    (hidx : ([⟨rc, some ur⟩, ⟨"Imm8", none⟩, ⟨"FLAGS", some fu⟩] : List Arg).findIdx?
      (fun g => g = (⟨"Imm8", none⟩ : Arg)) = some 1)
    (hren : renumberNonImplicit [⟨rc, some ur⟩, ⟨"FLAGS", some fu⟩] 0 = ["arg0"]) :
    ((insns.filter (fun m => isInsnMatch m (a ++ "ByOne")
        [⟨rc, some ur⟩, ⟨"FLAGS", some fu⟩])).length = 1 →
      genEmitShortcutShift
        { asm := some a, args := [⟨rc, some ur⟩, ⟨"Imm8", none⟩, ⟨"FLAGS", some fu⟩] } insns =
        .ok ["  if (arg1 == 1) return " ++ a ++ "ByOne(" ++ "arg0" ++ ");"]) ∧
    ((insns.filter (fun m => isInsnMatch m (a ++ "ByOne")
        [⟨rc, some ur⟩, ⟨"FLAGS", some fu⟩])).length = 0 →
      genEmitShortcutShift
        { asm := some a, args := [⟨rc, some ur⟩, ⟨"Imm8", none⟩, ⟨"FLAGS", some fu⟩] } insns =
        .ok []) := by
  have hchar := shiftGuard_char
    { asm := some a, args := [⟨rc, some ur⟩, ⟨"Imm8", none⟩, ⟨"FLAGS", some fu⟩] } a rfl
    [⟨rc, some ur⟩, ⟨"FLAGS", some fu⟩] hnon 1 hidx insns
  simp only [hren] at hchar
  constructor
  · intro hcount
    obtain ⟨m, hm⟩ := List.length_eq_one.mp hcount
    rw [hchar, hm]
    rfl
  · intro hcount
    rw [hchar, List.length_eq_zero.mp hcount]
    rfl

/-- Claim C9, counterexample: on a record whose `Imm8` operand is preceded by
an implicit register (`RCX`), the immediate is generated parameter `arg0`,
but the emitted `ByOne` guard tests `arg1` — the guard's index is the
immediate's position in the full operand list, not its parameter index — so
no guard testing the immediate parameter is emitted. -/
theorem c9_counterexample :
    genEmitShortcut c9Insn [c9Insn, c9Sibling] =
      .ok ["  if (arg1 == 1) return FooByOne();"] ∧
    immParamIndex c9Insn = some 0 ∧
    ¬ ("  if (arg0 == 1) return FooByOne();" ∈
        ["  if (arg1 == 1) return FooByOne();"]) := by decide

/-- Claim C9 (amended): for a record of the canonical shift shape (one
general-register operand, then the bare `Imm8` operand, then `FLAGS` — so
that no implicit register precedes the immediate and the immediate is the
last non-implicit operand), the shift family emits exactly one guard when the
catalog contains exactly one `<mnemonic>ByOne` sibling with the `Imm8`
operand removed: the guard tests whether the immediate parameter `arg1`
equals the literal 1 and delegates with that parameter dropped and the
remaining non-implicit parameter forwarded; with no such sibling, no guard is
emitted. -/
theorem c9_shift_by_one_amended (a ur fu : String) (rc : String) (insns : List Insn)
    (hrc : rc ∈ (["GeneralReg", "GeneralReg8", "GeneralReg16", "GeneralReg32",
                  "GeneralReg64"] : List String)) :
    immParamIndex
      { asm := some a,
        args := [⟨rc, some ur⟩, ⟨"Imm8", none⟩, ⟨"FLAGS", some fu⟩] } = some 1 ∧
    ((insns.filter (fun m => isInsnMatch m (a ++ "ByOne")
        [⟨rc, some ur⟩, ⟨"FLAGS", some fu⟩])).length = 1 →
      genEmitShortcutShift
        { asm := some a, args := [⟨rc, some ur⟩, ⟨"Imm8", none⟩, ⟨"FLAGS", some fu⟩] } insns =
        .ok ["  if (arg1 == 1) return " ++ a ++ "ByOne(" ++ "arg0" ++ ");"]) ∧
    ((insns.filter (fun m => isInsnMatch m (a ++ "ByOne")
        [⟨rc, some ur⟩, ⟨"FLAGS", some fu⟩])).length = 0 →
      genEmitShortcutShift
        { asm := some a, args := [⟨rc, some ur⟩, ⟨"Imm8", none⟩, ⟨"FLAGS", some fu⟩] } insns =
        .ok []) := by
  have hrc' : rc = "GeneralReg" ∨ rc = "GeneralReg8" ∨ rc = "GeneralReg16" ∨
      rc = "GeneralReg32" ∨ rc = "GeneralReg64" := by simpa using hrc
  rcases hrc' with rfl | rfl | rfl | rfl | rfl <;>
    exact ⟨rfl, c9_case a ur fu _ insns rfl rfl rfl⟩

/-- Witness for `c9_shift_by_one_amended` at the `Shlb`/`ShlbByOne` scenario. -/
theorem c9_shift_by_one_amended_witness :
    genEmitShortcutShift
      { asm := some "Shlb",
        args := [⟨"GeneralReg8", some "use_def"⟩, ⟨"Imm8", none⟩, ⟨"FLAGS", some "def"⟩] }
      [c9Shlb, c9ShlbByOne] =
      .ok ["  if (arg1 == 1) return " ++ "Shlb" ++ "ByOne(" ++ "arg0" ++ ");"] :=
  (c9_shift_by_one_amended "Shlb" "use_def" "def" "GeneralReg8"
    [c9Shlb, c9ShlbByOne] (by decide)).2.1 (by decide)

/-- Claim C5, counterexample: under the architecture namespace `x86_32` —
which is not 64-bit — the binary emitter does produce the label-accepting
second overload for a memory-operand record with opcodes; the gate is
`'x86' in arch`, not a 64-bit check. -/
theorem c5_counterexample :
    processInsn .binaryAssembler "x86_32" [c5Insn] [] c5Insn = .ok (c5Lines, []) ∧
    c5Lines[4]? = some "constexpr void Test([[maybe_unused]] const LabelOperand arg0) \x7b" ∧
    pyContains "x86_32" "64" = false := by decide

/-- Claim C5 (amended): in binary mode, for every record with opcodes, the
label-accepting second overload block is emitted — as a contiguous block of
the record's output — precisely when the generated parameter list contains a
plain memory operand (`const Operand&`) and the architecture namespace
contains `x86`; for namespaces not containing `x86` (and likewise when there
is no memory operand) the block is empty. Both 32- and 64-bit x86 namespaces
receive the overload. -/
theorem c5_label_overload_amended :
    (∀ (insn : Insn) (arch : String) (catalog : List Insn) (name params : String)
       (pocs : List String) (bl : List String),
      labelOverloadBlock insn arch catalog name params pocs = .ok bl →
      (bl ≠ [] ↔ pyContains params "const Operand&" = true ∧ pyContains arch "x86" = true)) ∧
    (∀ (insn : Insn) (arch : String) (catalog : List Insn) (tmpl : Option String)
       (name params : String) (immType : Option String) (lines : List String)
       (ocs pocs : List String),
      (match insn.opcode with | some oc => some [oc] | none => insn.opcodes) = some ocs →
      mapExcept processOpcode ocs = .ok pocs →
      binaryInsnBody insn arch catalog tmpl name params immType = .ok lines →
      ∃ bl pre post, labelOverloadBlock insn arch catalog name params pocs = .ok bl ∧
        lines = pre ++ (bl ++ post)) := by
  constructor
  · intro insn arch catalog name params pocs bl h
    unfold labelOverloadBlock at h
    by_cases hc : pyContains params "const Operand&" = true ∧ pyContains arch "x86" = true
    · rw [if_pos hc] at h
      cases hsc : genEmitShortcut insn catalog with
      | error e => rw [hsc] at h; simp at h
      | ok sc =>
        rw [hsc] at h
        cases hei : genEmitInstruction insn arch pocs true false with
        | error e => rw [hei] at h; simp at h
        | ok ei =>
          rw [hei] at h
          simp only [Except.ok.injEq] at h
          constructor
          · intro _; exact hc
          · intro _; rw [← h]; simp
    · rw [if_neg hc] at h
      simp only [Except.ok.injEq] at h
      constructor
      · intro hne; exact absurd h.symm hne
      · intro hcc; exact absurd hcc hc
  · intro insn arch catalog tmpl name params immType lines ocs pocs h1 h2 hb
    unfold binaryInsnBody at hb
    simp only [h1, h2] at hb
    cases hsc : (if pyContains arch "x86" = true then genEmitShortcut insn catalog
                 else Except.ok []) with
    | error e => rw [hsc] at hb; simp at hb
    | ok sc =>
      rw [hsc] at hb
      cases hei : genEmitInstruction insn arch pocs false false with
      | error e => rw [hei] at hb; simp at hb
      | ok ei =>
        rw [hei] at hb
        cases hlbl : labelOverloadBlock insn arch catalog name params pocs with
        | error e => rw [hlbl] at hb; simp at hb
        | ok lbl =>
          rw [hlbl] at hb
          cases hrmo : rmOverloadBlock insn arch name params pocs with
          | error e => rw [hrmo] at hb; simp at hb
          | ok rmo =>
            rw [hrmo] at hb
            simp only [Except.ok.injEq] at hb
            refine ⟨lbl, ("constexpr void " ++ name ++ "(" ++ params ++ ") \x7b") :: sc ++
              ei ++ ["\x7d"], rmo ++ immDeleteBlock tmpl name params immType, rfl, ?_⟩
            rw [← hb]
            simp [List.append_assoc]

/-- Witness for `c5_label_overload_amended` at concrete x86_32 data. -/
theorem c5_label_overload_amended_witness :
    ((["", "constexpr void Test([[maybe_unused]] const LabelOperand arg0) \x7b",
       "  EmitInstruction<uint8_t\x7b0xFF\x7d>(Label32Bit(arg0));", "\x7d", ""] :
         List String) ≠ [] ↔
      pyContains "[[maybe_unused]] const Operand& arg0" "const Operand&" = true ∧
      pyContains "x86_32" "x86" = true) ∧
    (∃ bl pre post,
      labelOverloadBlock c5Insn "x86_32" [c5Insn] "Test"
        "[[maybe_unused]] const Operand& arg0" ["uint8_t\x7b0xFF\x7d"] = .ok bl ∧
      c5Lines = pre ++ (bl ++ post)) :=
  ⟨c5_label_overload_amended.1 c5Insn "x86_32" [c5Insn] "Test"
    "[[maybe_unused]] const Operand& arg0" ["uint8_t\x7b0xFF\x7d"] _ (by decide),
   c5_label_overload_amended.2 c5Insn "x86_32" [c5Insn] none "Test"
    "[[maybe_unused]] const Operand& arg0" none c5Lines ["FF"] ["uint8_t\x7b0xFF\x7d"]
    rfl (by decide) (by decide)⟩

/-! ### Verifier-mode line analysis -/

theorem ne_of_pref {p q : String} (hl : p.data.length = q.data.length) (hne : p ≠ q)
    {x y : String} (a b : String) (hx : x = p ++ a) (hy : y = q ++ b) : x ≠ y := by
  rw [hx, hy]
  exact ne_append_of_ne_pref hl hne a b

theorem use_line_decomp1 (n : Nat) :
    ("  RegisterUse(arg" ++ natStr n ++ ");") = " " ++ (" RegisterUse(arg" ++ (natStr n ++ ");")) := by
  apply string_ext
  simp [data_append, List.append_assoc]

theorem def_line_decomp1 (n : Nat) :
    ("  RegisterDef(arg" ++ natStr n ++ ");") = " " ++ (" RegisterDef(arg" ++ (natStr n ++ ");")) := by
  apply string_ext
  simp [data_append, List.append_assoc]

theorem use_line_decomp3 (n : Nat) :
    ("  RegisterUse(arg" ++ natStr n ++ ");") = "  R" ++ ("egisterUse(arg" ++ (natStr n ++ ");")) := by
  apply string_ext
  simp [data_append, List.append_assoc]

theorem def_line_decomp3 (n : Nat) :
    ("  RegisterDef(arg" ++ natStr n ++ ");") = "  R" ++ ("egisterDef(arg" ++ (natStr n ++ ");")) := by
  apply string_ext
  simp [data_append, List.append_assoc]

theorem use_line_decomp17 (n : Nat) :
    ("  RegisterUse(arg" ++ natStr n ++ ");") = "  RegisterUse(arg" ++ (natStr n ++ ");") := by
  simp [String.append_assoc]

theorem def_line_decomp17 (n : Nat) :
    ("  RegisterDef(arg" ++ natStr n ++ ");") = "  RegisterDef(arg" ++ (natStr n ++ ");") := by
  simp [String.append_assoc]

theorem hdr_decomp (name params : String) :
    ("constexpr void " ++ name ++ "(" ++ params ++ ") \x7b") =
      "c" ++ ("onstexpr void " ++ (name ++ ("(" ++ (params ++ ") \x7b")))) := by
  apply string_ext
  simp [data_append, List.append_assoc]

theorem feat_decomp (ft : String) :
    ("  SetRequiredFeature" ++ ft ++ "();") = "  S" ++ ("etRequiredFeature" ++ (ft ++ "();")) := by
  apply string_ext
  simp [data_append, List.append_assoc]

theorem tmpl_decomp (x : String) :
    ("template <" ++ x ++ ">") = "t" ++ ("emplate <" ++ (x ++ ">")) := by
  apply string_ext
  simp [data_append, List.append_assoc]

theorem use_shape_ne_def_shape (n m : Nat) :
    ("  RegisterUse(arg" ++ natStr n ++ ");") ≠ ("  RegisterDef(arg" ++ natStr m ++ ");") :=
  ne_of_pref (by decide) (by decide) _ _ (use_line_decomp17 n) (def_line_decomp17 m)

theorem use_shape_not_def (n : Nat) : ¬ isDefLine ("  RegisterUse(arg" ++ natStr n ++ ");") := by
  rintro ⟨m, hm⟩
  exact use_shape_ne_def_shape n m hm

theorem def_shape_not_use (n : Nat) : ¬ isUseLine ("  RegisterDef(arg" ++ natStr n ++ ");") := by
  rintro ⟨m, hm⟩
  exact use_shape_ne_def_shape m n hm.symm

theorem hdr_not_use (name params : String) :
    ¬ isUseLine ("constexpr void " ++ name ++ "(" ++ params ++ ") \x7b") := by
  rintro ⟨n, hn⟩
  exact ne_of_pref (p := "c") (q := " ") (by decide) (by decide) _ _
    (hdr_decomp name params) (use_line_decomp1 n) hn

theorem hdr_not_def (name params : String) :
    ¬ isDefLine ("constexpr void " ++ name ++ "(" ++ params ++ ") \x7b") := by
  rintro ⟨n, hn⟩
  exact ne_of_pref (p := "c") (q := " ") (by decide) (by decide) _ _
    (hdr_decomp name params) (def_line_decomp1 n) hn

theorem feat_not_use (ft : String) : ¬ isUseLine ("  SetRequiredFeature" ++ ft ++ "();") := by
  rintro ⟨n, hn⟩
  exact ne_of_pref (p := "  S") (q := "  R") (by decide) (by decide) _ _
    (feat_decomp ft) (use_line_decomp3 n) hn

theorem feat_not_def (ft : String) : ¬ isDefLine ("  SetRequiredFeature" ++ ft ++ "();") := by
  rintro ⟨n, hn⟩
  exact ne_of_pref (p := "  S") (q := "  R") (by decide) (by decide) _ _
    (feat_decomp ft) (def_line_decomp3 n) hn

theorem flags_not_use : ¬ isUseLine "  SetDefinesFLAGS();" := by
  rintro ⟨n, hn⟩
  exact ne_of_pref (p := "  S") (q := "  R") (by decide) (by decide) _ _
    (show ("  SetDefinesFLAGS();" : String) = "  S" ++ "etDefinesFLAGS();" from by decide)
    (use_line_decomp3 n) hn

theorem flags_not_def : ¬ isDefLine "  SetDefinesFLAGS();" := by
  rintro ⟨n, hn⟩
  exact ne_of_pref (p := "  S") (q := "  R") (by decide) (by decide) _ _
    (show ("  SetDefinesFLAGS();" : String) = "  S" ++ "etDefinesFLAGS();" from by decide)
    (def_line_decomp3 n) hn

theorem close_not_use : ¬ isUseLine "\x7d" := by
  rintro ⟨n, hn⟩
  exact ne_of_pref (p := "\x7d") (q := " ") (by decide) (by decide) _ _
    (show ("\x7d" : String) = "\x7d" ++ "" from by decide) (use_line_decomp1 n) hn

theorem close_not_def : ¬ isDefLine "\x7d" := by
  rintro ⟨n, hn⟩
  exact ne_of_pref (p := "\x7d") (q := " ") (by decide) (by decide) _ _
    (show ("\x7d" : String) = "\x7d" ++ "" from by decide) (def_line_decomp1 n) hn

theorem tmpl_not_use (x : String) : ¬ isUseLine ("template <" ++ x ++ ">") := by
  rintro ⟨n, hn⟩
  exact ne_of_pref (p := "t") (q := " ") (by decide) (by decide) _ _
    (tmpl_decomp x) (use_line_decomp1 n) hn

theorem tmpl_not_def (x : String) : ¬ isDefLine ("template <" ++ x ++ ">") := by
  rintro ⟨n, hn⟩
  exact ne_of_pref (p := "t") (q := " ") (by decide) (by decide) _ _
    (tmpl_decomp x) (def_line_decomp1 n) hn

theorem use_pass_line (n : Nat) :
    ("  Register" ++ pyCapitalize "use" ++ "(arg" ++ natStr n ++ ");") =
      "  RegisterUse(arg" ++ natStr n ++ ");" := by
  apply string_ext
  simp [data_append, List.append_assoc, pyCapitalize]

theorem def_pass_line (n : Nat) :
    ("  Register" ++ pyCapitalize "def" ++ "(arg" ++ natStr n ++ ");") =
      "  RegisterDef(arg" ++ natStr n ++ ");" := by
  apply string_ext
  simp [data_append, List.append_assoc, pyCapitalize]

theorem rwInfoPass_shape (insn : Insn) (arch : String) (u : String) :
    ∀ (args : List Arg) (k : Nat) (ls : List String),
    rwInfoPass insn arch u args k = .ok ls →
    ∀ l ∈ ls, ∃ n : Nat, l = "  Register" ++ pyCapitalize u ++ "(arg" ++ natStr n ++ ");" := by
  intro args
  induction args with
  | nil =>
    intro k ls h l hl
    simp only [rwInfoPass, Except.ok.injEq] at h
    subst h
    exact absurd hl (List.not_mem_nil l)
  | cons a rest ih =>
    intro k ls h l hl
    simp only [rwInfoPass] at h
    by_cases hi : is_implicit_reg a.cls = true
    · rw [if_pos hi] at h
      exact ih k ls h l hl
    · rw [if_neg hi] at h
      cases hg : getArgTypeName a insn.ty with
      | error e => simp only [hg] at h; exact (Except.noConfusion h)
      | ok t =>
        simp only [hg] at h
        cases hrest : rwInfoPass insn arch u rest (k + 1) with
        | error e => simp only [hrest] at h; exact (Except.noConfusion h)
        | ok others =>
          simp only [hrest] at h
          split at h
          · simp only [Except.ok.injEq] at h
            subst h
            rcases List.mem_cons.mp hl with rfl | hl2
            · exact ⟨k, rfl⟩
            · exact ih (k + 1) others hrest l hl2
          · simp only [Except.ok.injEq] at h
            subst h
            exact ih (k + 1) others hrest l hl

theorem idx_lt_of_split {α : Type} (P Q : α → Prop) (A B : List α)
    (hA : ∀ l ∈ A, ¬ Q l) (hB : ∀ l ∈ B, ¬ P l) :
    ∀ (i j : Nat) (x y : α), (A ++ B)[i]? = some x → (A ++ B)[j]? = some y →
      P x → Q y → i < j := by
  intro i j x y hx hy hPx hQy
  have hiA : i < A.length := by
    by_contra hge
    push_neg at hge
    rw [List.getElem?_append_right hge] at hx
    exact hB x (List.mem_iff_getElem?.mpr ⟨_, hx⟩) hPx
  have hjB : A.length ≤ j := by
    by_contra hlt
    push_neg at hlt
    rw [List.getElem?_append_left hlt] at hy
    exact hA y (List.mem_iff_getElem?.mpr ⟨_, hy⟩) hQy
  omega

theorem verifierInsnBody_split (insn : Insn) (arch : String) (name params : String)
    (body : List String) (h : verifierInsnBody insn arch name params = .ok body) :
    ∃ (pre us ds : List String),
      body = (pre ++ us) ++ (ds ++ ["\x7d"]) ∧
      (∀ l ∈ pre, ¬ isUseLine l ∧ ¬ isDefLine l) ∧
      (∀ l ∈ us, isUseLine l ∧ ¬ isDefLine l) ∧
      (∀ l ∈ ds, isDefLine l ∧ ¬ isUseLine l) := by
  unfold verifierInsnBody at h
  cases hrw : genRegisterReadWriteInfo insn arch with
  | error e => rw [hrw] at h; simp at h
  | ok rw0 =>
    rw [hrw] at h
    unfold genRegisterReadWriteInfo at hrw
    cases hus : rwInfoPass insn arch "use" insn.args 0 with
    | error e => rw [hus] at hrw; simp at hrw
    | ok us =>
      rw [hus] at hrw
      cases hds : rwInfoPass insn arch "def" insn.args 0 with
      | error e => rw [hds] at hrw; simp at hrw
      | ok ds =>
        rw [hds] at hrw
        simp only [Except.ok.injEq] at hrw h
        refine ⟨["constexpr void " ++ name ++ "(" ++ params ++ ") \x7b"] ++
          (match insn.feature with
           | some ft => ["  SetRequiredFeature" ++ ft ++ "();"]
           | none => []) ++
          (if insn.args.any (fun a => a.cls == "FLAGS") then ["  SetDefinesFLAGS();"]
           else []), us, ds, ?_, ?_, ?_, ?_⟩
        · rw [← h, ← hrw]
          simp [List.append_assoc]
        · intro l hl
          simp only [List.append_assoc, List.mem_append, List.mem_singleton] at hl
          rcases hl with rfl | hl
          · exact ⟨hdr_not_use name params, hdr_not_def name params⟩
          rcases hl with hl | hl
          · cases hf : insn.feature with
            | none => rw [hf] at hl; exact absurd hl (List.not_mem_nil l)
            | some ft =>
              rw [hf] at hl
              rw [List.mem_singleton] at hl
              subst hl
              exact ⟨feat_not_use ft, feat_not_def ft⟩
          · by_cases hfl : insn.args.any (fun a => a.cls == "FLAGS") = true
            · rw [if_pos hfl] at hl
              rw [List.mem_singleton] at hl
              subst hl
              exact ⟨flags_not_use, flags_not_def⟩
            · rw [if_neg hfl] at hl
              exact absurd hl (List.not_mem_nil l)
        · intro l hl
          obtain ⟨n, hn⟩ := rwInfoPass_shape insn arch "use" insn.args 0 us hus l hl
          rw [use_pass_line n] at hn
          subst hn
          exact ⟨⟨n, rfl⟩, use_shape_not_def n⟩
        · intro l hl
          obtain ⟨n, hn⟩ := rwInfoPass_shape insn arch "def" insn.args 0 ds hds l hl
          rw [def_pass_line n] at hn
          subst hn
          exact ⟨⟨n, rfl⟩, def_shape_not_use n⟩

theorem getTemplateName_some {insn : Insn} {t nm : String}
    (h : getTemplateName insn = (some t, nm)) : ∃ x, t = "template <" ++ x ++ ">" := by
  simp only [getTemplateName] at h
  split at h
  · simp at h
  · split at h
    · simp at h
    · simp only [Prod.mk.injEq, Option.some.injEq] at h
      exact ⟨_, h.1.symm⟩

/-- Claim C6: in verifier mode, within one record's emitted function body,
every register-use effect line appears strictly before every register-def
effect line (uses and use_defs are all listed before any def), regardless of
operand order. -/
theorem c6_use_effects_before_def_effects (arch : String) (catalog : List Insn)
    (seen : List (String × String)) (insn : Insn) (lines : List String)
    (seen' : List (String × String))
    (h : processInsn .verifierAssembler arch catalog seen insn = .ok (lines, seen'))
    (i j : Nat) (lu ld : String) (hi : lines[i]? = some lu) (hj : lines[j]? = some ld)
    (hu : isUseLine lu) (hd : isDefLine ld) : i < j := by
  unfold processInsn at h
  rcases htn : getTemplateName insn with ⟨tmplO, nm⟩
  simp only [htn] at h
  cases hp : getParams insn none with
  | error e => simp only [hp] at h; exact (Except.noConfusion h)
  | ok params =>
    simp only [hp] at h
    cases him : getImmediateType insn with
    | error e => simp only [him] at h; exact (Except.noConfusion h)
    | ok immT =>
      simp only [him] at h
      split at h
      case _ t =>
        by_cases hm : (nm, params) ∈ seen
        · rw [if_pos hm] at h
          simp only [Except.ok.injEq, Prod.mk.injEq] at h
          rw [← h.1] at hi
          simp at hi
        · rw [if_neg hm] at h
          cases hv : insnBody .verifierAssembler arch catalog insn (some t) nm params immT with
          | error e => simp only [hv] at h; exact (Except.noConfusion h)
          | ok body =>
            simp only [hv] at h
            simp only [Except.ok.injEq, Prod.mk.injEq] at h
            obtain ⟨pre, us, ds, hsplit, hpre, hus, hds⟩ :=
              verifierInsnBody_split insn arch nm params body hv
            obtain ⟨x, hx⟩ := getTemplateName_some htn
            have hlines : lines = ((t :: pre) ++ us) ++ (ds ++ ["\x7d"]) := by
              rw [← h.1, hsplit]
              simp [List.append_assoc]
            rw [hlines] at hi hj
            refine idx_lt_of_split isUseLine isDefLine ((t :: pre) ++ us) (ds ++ ["\x7d"])
              ?_ ?_ i j lu ld hi hj hu hd
            · intro l hl
              rcases List.mem_append.mp hl with hl | hl
              · rcases List.mem_cons.mp hl with rfl | hl2
                · rw [hx]; exact tmpl_not_def x
                · exact (hpre l hl2).2
              · exact (hus l hl).2
            · intro l hl
              rcases List.mem_append.mp hl with hl | hl
              · exact (hds l hl).2
              · rcases List.mem_cons.mp hl with rfl | hl2
                · exact close_not_use
                · exact absurd hl2 (List.not_mem_nil l)
      case _ =>
        cases hv : insnBody .verifierAssembler arch catalog insn none nm params immT with
        | error e => simp only [hv] at h; exact (Except.noConfusion h)
        | ok body =>
          simp only [hv] at h
          simp only [Except.ok.injEq, Prod.mk.injEq] at h
          obtain ⟨pre, us, ds, hsplit, hpre, hus, hds⟩ :=
            verifierInsnBody_split insn arch nm params body hv
          have hlines : lines = (pre ++ us) ++ (ds ++ ["\x7d"]) := by
            rw [← h.1, hsplit]
          rw [hlines] at hi hj
          refine idx_lt_of_split isUseLine isDefLine (pre ++ us) (ds ++ ["\x7d"])
            ?_ ?_ i j lu ld hi hj hu hd
          · intro l hl
            rcases List.mem_append.mp hl with hl | hl
            · exact (hpre l hl).2
            · exact (hus l hl).2
          · intro l hl
            rcases List.mem_append.mp hl with hl | hl
            · exact (hds l hl).2
            · rcases List.mem_cons.mp hl with rfl | hl2
              · exact close_not_use
              · exact absurd hl2 (List.not_mem_nil l)

/-- Witness for `c6_use_effects_before_def_effects`: a def-first record whose
use line (index 1) precedes its def line (index 2). -/
theorem c6_use_effects_before_def_effects_witness :
    isUseLine "  RegisterUse(arg1);" ∧ isDefLine "  RegisterDef(arg0);" ∧ (1 : Nat) < 2 :=
  ⟨⟨1, by decide⟩, ⟨0, by decide⟩,
   c6_use_effects_before_def_effects "x86_64" [c6Insn] [] c6Insn c6Lines [] (by decide)
     1 2 "  RegisterUse(arg1);" "  RegisterDef(arg0);" (by decide) (by decide)
     ⟨1, by decide⟩ ⟨0, by decide⟩⟩

/-! ### C10: template deduplication in the generic-functions emitter -/

theorem processInsn_seen_sub (mode : AssemblerMode) (arch : String)
    (catalog : List Insn) (seen : List (String × String)) (insn : Insn)
    (out : List String) (seen' : List (String × String))
    (h : processInsn mode arch catalog seen insn = .ok (out, seen')) :
    ∀ k, k ∈ seen → k ∈ seen' := by
  unfold processInsn at h
  rcases htn : getTemplateName insn with ⟨tmplO, nm⟩
  simp only [htn] at h
  cases hp : getParams insn none with
  | error e => simp only [hp] at h; exact (Except.noConfusion h)
  | ok params =>
    simp only [hp] at h
    cases him : getImmediateType insn with
    | error e => simp only [him] at h; exact (Except.noConfusion h)
    | ok immT =>
      simp only [him] at h
      split at h
      case _ t =>
        by_cases hm : (nm, params) ∈ seen
        · rw [if_pos hm] at h
          simp only [Except.ok.injEq, Prod.mk.injEq] at h
          rw [← h.2]; exact fun k hk => hk
        · rw [if_neg hm] at h
          cases hv : insnBody mode arch catalog insn (some t) nm params immT with
          | error e => simp only [hv] at h; exact (Except.noConfusion h)
          | ok body =>
            simp only [hv, Except.ok.injEq, Prod.mk.injEq] at h
            rw [← h.2]
            exact fun k hk => List.mem_append_left _ hk
      case _ =>
        cases hv : insnBody mode arch catalog insn none nm params immT with
        | error e => simp only [hv] at h; exact (Except.noConfusion h)
        | ok body =>
          simp only [hv, Except.ok.injEq, Prod.mk.injEq] at h
          rw [← h.2]; exact fun k hk => hk

theorem processInsn_dup_out (mode : AssemblerMode) (arch : String)
    (catalog : List Insn) (seen : List (String × String)) (insn : Insn)
    (t nm params : String) (out : List String) (seen' : List (String × String))
    (htn : getTemplateName insn = (some t, nm))
    (hp : getParams insn none = .ok params)
    (hm : (nm, params) ∈ seen)
    (h : processInsn mode arch catalog seen insn = .ok (out, seen')) :
    out = [] ∧ seen' = seen := by
  unfold processInsn at h
  simp only [htn, hp] at h
  cases him : getImmediateType insn with
  | error e => simp only [him] at h; exact (Except.noConfusion h)
  | ok immT =>
    simp only [him] at h
    rw [if_pos hm] at h
    simp only [Except.ok.injEq, Prod.mk.injEq] at h
    exact ⟨h.1.symm, h.2.symm⟩

theorem processInsn_adds_key (mode : AssemblerMode) (arch : String)
    (catalog : List Insn) (seen : List (String × String)) (insn : Insn)
    (t nm params : String) (out : List String) (seen' : List (String × String))
    (htn : getTemplateName insn = (some t, nm))
    (hp : getParams insn none = .ok params)
    (h : processInsn mode arch catalog seen insn = .ok (out, seen')) :
    (nm, params) ∈ seen' := by
  unfold processInsn at h
  simp only [htn, hp] at h
  cases him : getImmediateType insn with
  | error e => simp only [him] at h; exact (Except.noConfusion h)
  | ok immT =>
    simp only [him] at h
    by_cases hm : (nm, params) ∈ seen
    · rw [if_pos hm] at h
      simp only [Except.ok.injEq, Prod.mk.injEq] at h
      rw [← h.2]; exact hm
    · rw [if_neg hm] at h
      cases hv : insnBody mode arch catalog insn (some t) nm params immT with
      | error e => simp only [hv] at h; exact (Except.noConfusion h)
      | ok body =>
        simp only [hv, Except.ok.injEq, Prod.mk.injEq] at h
        rw [← h.2]
        exact List.mem_append_right _ (List.mem_singleton.mpr rfl)

theorem processInsnsAux_dup (mode : AssemblerMode) (arch : String) (catalog : List Insn) :
    ∀ (l : List Insn) (seen : List (String × String)) (outs : List (List String))
      (j : Nat) (jj : Insn) (tj nm p : String),
      processInsnsAux mode arch catalog l seen = .ok outs →
      l[j]? = some jj →
      getTemplateName jj = (some tj, nm) →
      getParams jj none = .ok p →
      (nm, p) ∈ seen →
      outs[j]? = some [] := by
  intro l
  induction l with
  | nil =>
    intro seen outs j jj tj nm p h hj
    simp at hj
  | cons a rest ih =>
    intro seen outs j jj tj nm p h hj htn hp hm
    simp only [processInsnsAux] at h
    cases h1 : processInsn mode arch catalog seen a with
    | error e => simp only [h1] at h; exact (Except.noConfusion h)
    | ok pr =>
      rcases pr with ⟨out, seen1⟩
      simp only [h1] at h
      cases h2 : processInsnsAux mode arch catalog rest seen1 with
      | error e => simp only [h2] at h; exact (Except.noConfusion h)
      | ok outs1 =>
        simp only [h2, Except.ok.injEq] at h
        subst h
        cases j with
        | zero =>
          rw [List.getElem?_cons_zero] at hj
          injection hj with hjj
          subst hjj
          have hd := processInsn_dup_out mode arch catalog seen a tj nm p out seen1 htn hp hm h1
          rw [hd.1]
          simp
        | succ k =>
          rw [List.getElem?_cons_succ] at hj
          have hm1 : (nm, p) ∈ seen1 :=
            processInsn_seen_sub mode arch catalog seen a out seen1 h1 _ hm
          rw [List.getElem?_cons_succ]
          exact ih seen1 outs1 k jj tj nm p h2 hj htn hp hm1

/-- Claim C10: in every emission mode, among template records (mnemonic contains
`<`) the generic-functions loop emits at most one function per (base name,
parameter list) pair: any later record in catalog order whose template base
name and generated parameter list equal those of an earlier template record
contributes no output lines at all. -/
theorem c10_template_dedup (mode : AssemblerMode) (arch : String)
    (catalog : List Insn) (l : List Insn) (seen : List (String × String))
    (outs : List (List String)) (i j : Nat) (ii jj : Insn) (ti tj nm p : String)
    (hti : getTemplateName ii = (some ti, nm))
    (htj : getTemplateName jj = (some tj, nm))
    (hpi : getParams ii none = .ok p)
    (hpj : getParams jj none = .ok p)
    (h : processInsnsAux mode arch catalog l seen = .ok outs)
    (hij : i < j) (hi : l[i]? = some ii) (hj : l[j]? = some jj) :
    outs[j]? = some [] := by
  revert seen outs i j
  induction l with
  | nil =>
    intro seen outs i j h hij hi hj
    simp at hi
  | cons a rest ih =>
    intro seen outs i j h hij hi hj
    simp only [processInsnsAux] at h
    cases h1 : processInsn mode arch catalog seen a with
    | error e => simp only [h1] at h; exact (Except.noConfusion h)
    | ok pr =>
      rcases pr with ⟨out, seen1⟩
      simp only [h1] at h
      cases h2 : processInsnsAux mode arch catalog rest seen1 with
      | error e => simp only [h2] at h; exact (Except.noConfusion h)
      | ok outs1 =>
        simp only [h2, Except.ok.injEq] at h
        subst h
        cases i with
        | zero =>
          rw [List.getElem?_cons_zero] at hi
          injection hi with hii
          subst hii
          cases j with
          | zero => exact absurd hij (Nat.lt_irrefl 0)
          | succ k =>
            rw [List.getElem?_cons_succ] at hj
            have hk : (nm, p) ∈ seen1 :=
              processInsn_adds_key mode arch catalog seen a ti nm p out seen1 hti hpi h1
            rw [List.getElem?_cons_succ]
            exact processInsnsAux_dup mode arch catalog rest seen1 outs1 k jj tj nm p h2 hj
              htj hpj hk
        | succ k =>
          cases j with
          | zero => exact absurd hij (by omega)
          | succ m =>
            rw [List.getElem?_cons_succ] at hi hj
            rw [List.getElem?_cons_succ]
            exact ih seen1 outs1 k m h2 (by omega) hi hj

/-- Witness for `c10_template_dedup`: feeding the template record `c10Insn`
twice through the text-mode loop, the second occurrence contributes nothing. -/
theorem c10_template_dedup_witness :
    processInsnsAux .textAssembler "x86_64" [c10Insn, c10Insn] [c10Insn, c10Insn] [] =
      .ok [c10Lines, []] ∧
    (([c10Lines, []] : List (List String)))[1]? = some [] :=
  ⟨by decide,
   c10_template_dedup .textAssembler "x86_64" [c10Insn, c10Insn] [c10Insn, c10Insn] []
     [c10Lines, []] 0 1 c10Insn c10Insn "template <int>" "template <int>" "MacroVTbl"
     "[[maybe_unused]] Register arg0" (by decide) (by decide) (by decide) (by decide)
     (by decide) (by decide) (by decide) (by decide)⟩

end AsmGen
